import Mathlib

/-!
Shallow embedding of the `go-services` repository: the exchange matching
engine (`exchange.go`: `PlaceLimitOrder`, `PlaceMarketOrder`, `CancelOrder`,
`matchingLimitOrder`, `runLimitMatching`, `matchingMarketOrder`,
`runMarketMatching`), the wallet ledger (`wallet.go`: `Add`), the TOTP user
service (`totpuser.go`: `VerifyUser`) and the reCAPTCHA verifier
(`recaptcha.go`: `Verify`, `NewWithClient`).

Monetary quantities (shopspring arbitrary-precision decimals in Go) are
modelled as rationals; the operations used by the code (add, sub, mul, neg,
compare) are exact on decimals, so the model is faithful.  The Repository
interface is instantiated with the in-repo memory repository
(`exchange_test.go`), with an explicit logical clock for `time.Now()`
(starting at 1, so a zero `CreatedAt` means "unset" exactly as
`time.Time.IsZero` does) and `Nat` order ids assigned from a counter.
The fee policy `GetFee` and the currency getters are parameters (`Cfg`),
mirroring the Go interfaces.  The state also carries a ghost `addTrace`
field recording every successful `wallet.Add` invocation (user, currency,
value) made through the service; it influences nothing.
-/

namespace GoServices

/-- Order side, `order.go`: `Buy`, `Sell`. -/
inductive Side where
  | buy
  | sell
  deriving DecidableEq

/-- Order status, `order.go`: `Active`, `Matched`, `Cancelled`. -/
inductive Status where
  | active
  | matched
  | cancelled
  deriving DecidableEq

/-- Order type, `order.go`: `Limit`, `Market`. -/
inductive OrderType where
  | limit
  | market
  deriving DecidableEq

/-- The distinguishable error values of `exchange` and `wallet`. -/
inductive Err where
  | invalidValue
  | invalidRate
  | invalidSide
  | orderNotFound
  | balanceNotEnough
  deriving DecidableEq

/-- `exchange.Order` (`order.go`).  Timestamps are logical (`Nat`), 0 = unset. -/
structure Order where
  id : Nat
  userID : String
  typ : OrderType
  side : Side
  status : Status
  rate : ℚ
  value : ℚ
  remaining : ℚ
  createdAt : Nat
  matchedAt : Nat
  finishedAt : Nat
  deriving DecidableEq

/-- A trade-history record, the arguments of `Repository.InsertHistory`. -/
structure Hist where
  src : Order
  dst : Order
  side : Side
  rate : ℚ
  amount : ℚ
  srcFee : ℚ
  dstFee : ℚ
  deriving DecidableEq

/-- Combined state of the memory exchange repository and the wallet:
order store, id counter, logical clock, balances, wallet journal
(`InsertTx` calls), trade history, and the ghost trace of successful
`wallet.Add` invocations. -/
structure ExSt where
  orders : List Order
  nextID : Nat
  now : Nat
  balances : String → String → ℚ
  journal : List (String × String × ℚ)
  history : List Hist
  addTrace : List (String × String × ℚ)

/-- The injected collaborators: the fee policy `Repository.GetFee`
(a pure function of user, side, rate, amount) and the two currency
getters of `exchange.Currency`. -/
structure Cfg where
  fee : String → Side → ℚ → ℚ → ℚ
  buyCur : String
  sellCur : String

/-- `service.getCurrency`. -/
def getCurrency (cfg : Cfg) (side : Side) : String :=
  match side with
  | .buy => cfg.buyCur
  | .sell => cfg.sellCur

/-- `wallet.service.Add` (`wallet.go`): zero value short-circuits; a negative
value fails with `ErrBalanceNotEnough` when `balance < value`; otherwise the
balance is adjusted and one journal entry (`InsertTx`) is written.  On failure
the returned state is the input state, unchanged.  Successful invocations are
also recorded in the ghost `addTrace`. -/
def walletAdd (s : ExSt) (u c : String) (v : ℚ) : Option Err × ExSt :=
  if v = 0 then
    (none, { s with addTrace := (u, c, v) :: s.addTrace })
  else if v < 0 ∧ s.balances u c < v then
    (some Err.balanceNotEnough, s)
  else
    (none,
      { s with
        balances := fun u' c' =>
          if u' = u ∧ c' = c then s.balances u' c' + v else s.balances u' c'
        journal := (u, c, v) :: s.journal
        addTrace := (u, c, v) :: s.addTrace })

/-- The all-zero `exchange.Order` value (Go zero value of the struct). -/
def zeroOrder : Order :=
  { id := 0, userID := "", typ := .limit, side := .buy, status := .active
    rate := 0, value := 0, remaining := 0, createdAt := 0, matchedAt := 0
    finishedAt := 0 }

/-- Update the first element satisfying `p` (the memory repository's
"find by id, mutate, return" loops). -/
def updateFirst (p : Order → Bool) (f : Order → Order) : List Order → List Order
  | [] => []
  | o :: rest => if p o then f o :: rest else o :: updateFirst p f rest

/-- `memoryExchangeRepository.CreateOrder`: assign a fresh id and
`CreatedAt`, append to the store. -/
def createOrder (s : ExSt) (o : Order) : Nat × ExSt :=
  (s.nextID,
    { s with
      orders := s.orders ++ [{ o with id := s.nextID, createdAt := s.now }]
      nextID := s.nextID + 1
      now := s.now + 1 })

/-- `memoryExchangeRepository.GetOrder`: first order with the given id. -/
def getOrder (s : ExSt) (oid : Nat) : Option Order :=
  s.orders.find? fun o => o.id == oid

/-- `memoryExchangeRepository.SetOrderStatus`. -/
def setOrderStatus (s : ExSt) (oid : Nat) (st : Status) : ExSt :=
  { s with orders := updateFirst (fun o => o.id == oid) (fun o => { o with status := st }) s.orders }

/-- `memoryExchangeRepository.SetOrderStatusRemainingAndStampMatched`. -/
def setOrderStatusRemainingAndStampMatched (s : ExSt) (oid : Nat) (st : Status) (rem : ℚ) : ExSt :=
  { s with
    orders := updateFirst (fun o => o.id == oid)
      (fun o => { o with status := st, remaining := rem, matchedAt := s.now }) s.orders
    now := s.now + 1 }

/-- `memoryExchangeRepository.StampOrderFinished`. -/
def stampOrderFinished (s : ExSt) (oid : Nat) : ExSt :=
  { s with
    orders := updateFirst (fun o => o.id == oid)
      (fun o => { o with finishedAt := s.now }) s.orders
    now := s.now + 1 }

/-- `memoryExchangeRepository.InsertHistory`. -/
def insertHistory (s : ExSt) (src dst : Order) (side : Side) (rate amount srcFee dstFee : ℚ) : ExSt :=
  { s with history := ⟨src, dst, side, rate, amount, srcFee, dstFee⟩ :: s.history }

/-- The candidate filter of `GetActiveSellLimitOrderLowestRate`. -/
def isActiveSellLimit (o : Order) : Bool :=
  o.side == Side.sell && o.status == Status.active && o.typ == OrderType.limit

/-- The candidate filter of `GetActiveBuyLimitOrderHighestRate`. -/
def isActiveBuyLimit (o : Order) : Bool :=
  o.side == Side.buy && o.status == Status.active && o.typ == OrderType.limit

/-- The accumulation step of `GetActiveSellLimitOrderLowestRate`: a zero
`result.Rate` means "nothing selected yet"; equal rates tie-break on earlier
`CreatedAt`; otherwise keep the lower rate. -/
def bestSellAcc (result o : Order) : Order :=
  if isActiveSellLimit o then
    if result.rate = 0 then o
    else if o.rate = result.rate then
      (if o.createdAt < result.createdAt then o else result)
    else if o.rate < result.rate then o else result
  else result

/-- The accumulation step of `GetActiveBuyLimitOrderHighestRate`. -/
def bestBuyAcc (result o : Order) : Order :=
  if isActiveBuyLimit o then
    if result.rate = 0 then o
    else if o.rate = result.rate then
      (if o.createdAt < result.createdAt then o else result)
    else if result.rate < o.rate then o else result
  else result

/-- `memoryExchangeRepository.GetActiveSellLimitOrderLowestRate`; a zero
`CreatedAt` on the accumulated result signals `ErrOrderNotFound`. -/
def getActiveSellLimitOrderLowestRate (s : ExSt) : Option Order :=
  let r := s.orders.foldl bestSellAcc zeroOrder
  if r.createdAt = 0 then none else some r

/-- `memoryExchangeRepository.GetActiveBuyLimitOrderHighestRate`. -/
def getActiveBuyLimitOrderHighestRate (s : ExSt) : Option Order :=
  let r := s.orders.foldl bestBuyAcc zeroOrder
  if r.createdAt = 0 then none else some r

/-- Outcome of one pass of a matching loop body: stop the loop, run another
iteration (the tail-recursive call in the Go code), or abort with an error.
In every case the working copy of the aggressor order and the state reached
so far are carried along (Go commits all mutations made before an error). -/
inductive StepRes where
  | stop (o : Order) (s : ExSt)
  | next (o : Order) (s : ExSt)
  | err (e : Err) (o : Order) (s : ExSt)

/-- The state carried by a step outcome. -/
def StepRes.st : StepRes → ExSt
  | .stop _ s => s
  | .next _ s => s
  | .err _ _ s => s

/-- The aggressor working copy carried by a step outcome. -/
def StepRes.ord : StepRes → Order
  | .stop o _ => o
  | .next o _ => o
  | .err _ o _ => o

/-- Whether a step outcome is an error. -/
def StepRes.isErr : StepRes → Bool
  | .err _ _ _ => true
  | _ => false

/-- The trade size of a matching iteration:
`min(matchOrder.Remaining, order.Remaining)` as written in the source. -/
def tradeAmount (O M : Order) : ℚ :=
  if M.remaining ≤ O.remaining then M.remaining else O.remaining

/-- A working copy after a fill of size `amount`: subtract from `Remaining`
and transition to `Matched` when nothing remains (the Go code's
`Remaining = Remaining.Sub(amount)` followed by the `≤ 0` status check). -/
def fillOrder (o : Order) (amount : ℚ) : Order :=
  if o.remaining - amount ≤ 0 then
    { o with remaining := o.remaining - amount, status := Status.matched }
  else { o with remaining := o.remaining - amount }

/-- The price-improvement rebate block of `runLimitMatching` (executed after
the settlement credits) followed by the `order.Status == Active` recursion
test: a Buy aggressor whose limit rate exceeds the executed rate is credited
`amount * (O.rate − rate)` in its own side currency when that is positive. -/
def settleRebate (cfg : Cfg) (O O2 : Order) (rate amount : ℚ) (s : ExSt) : StepRes :=
  if O.side = Side.buy ∧ ¬O.rate = rate then
    if 0 < amount * (O.rate - rate) then
      match walletAdd s O.userID (getCurrency cfg O.side) (amount * (O.rate - rate)) with
      | (some e, t) => .err e O2 t
      | (none, s6) =>
        if O2.status = Status.active then .next O2 s6 else .stop O2 s6
    else if O2.status = Status.active then .next O2 s else .stop O2 s
  else if O2.status = Status.active then .next O2 s else .stop O2 s

/-- The settlement tail of `runLimitMatching` (lines after `InsertHistory`):
the two settlement credits, split on the aggressor side exactly as in the
source (`if order.Side == Buy`), followed by the rebate block.  `O2` is the
mutated aggressor working copy. -/
def settleLimit (cfg : Cfg) (O M O2 : Order) (rate amount feeO feeM : ℚ) (s : ExSt) : StepRes :=
  match O.side with
  | .buy =>
    match walletAdd s O.userID (getCurrency cfg M.side) (amount - feeO) with
    | (some e, t) => .err e O2 t
    | (none, s4) =>
      match walletAdd s4 M.userID (getCurrency cfg O.side) ((amount - feeM) * rate) with
      | (some e, t) => .err e O2 t
      | (none, s5) => settleRebate cfg O O2 rate amount s5
  | .sell =>
    match walletAdd s O.userID (getCurrency cfg M.side) ((amount - feeO) * rate) with
    | (some e, t) => .err e O2 t
    | (none, s4) =>
      match walletAdd s4 M.userID (getCurrency cfg O.side) (amount - feeM) with
      | (some e, t) => .err e O2 t
      | (none, s5) => settleRebate cfg O O2 rate amount s5

/-- The part of the `runLimitMatching` body following a successful cross
check against the counter order `M`: trade size, mutation of both working
copies, status transitions, stamping and persistence of `M`, fee lookup,
history record, then settlement.  Trades execute at the resting rate
`M.rate`. -/
def tradeLimit (cfg : Cfg) (O M : Order) (s : ExSt) : StepRes :=
  settleLimit cfg O M (fillOrder O (tradeAmount O M)) M.rate (tradeAmount O M)
    (cfg.fee O.userID O.side O.rate (tradeAmount O M))
    (cfg.fee M.userID M.side M.rate (tradeAmount O M))
    (insertHistory
      (setOrderStatusRemainingAndStampMatched
        (if M.remaining - tradeAmount O M ≤ 0 then stampOrderFinished s M.id else s)
        M.id (fillOrder M (tradeAmount O M)).status (fillOrder M (tradeAmount O M)).remaining)
      (fillOrder O (tradeAmount O M)) (fillOrder M (tradeAmount O M)) Side.buy M.rate
      (tradeAmount O M)
      (cfg.fee O.userID O.side O.rate (tradeAmount O M))
      (cfg.fee M.userID M.side M.rate (tradeAmount O M)))

/-- One pass of the `runLimitMatching` body: fetch the best counter limit
order; `ErrOrderNotFound` or a failed cross check stops the loop with
nothing changed. -/
def runLimitStep (cfg : Cfg) (O : Order) (s : ExSt) : StepRes :=
  match O.side with
  | .buy =>
    match getActiveSellLimitOrderLowestRate s with
    | none => .stop O s
    | some M => if O.rate < M.rate then .stop O s else tradeLimit cfg O M s
  | .sell =>
    match getActiveBuyLimitOrderHighestRate s with
    | none => .stop O s
    | some M => if M.rate < O.rate then .stop O s else tradeLimit cfg O M s

/-- The counter-order lookup of `runLimitMatching`, per aggressor side. -/
def counterLookup (O : Order) (s : ExSt) : Option Order :=
  match O.side with
  | .buy => getActiveSellLimitOrderLowestRate s
  | .sell => getActiveBuyLimitOrderHighestRate s

/-- The cross check of `runLimitMatching`: a Buy aggressor proceeds unless
`M.Rate > O.Rate`; a Sell aggressor proceeds unless `M.Rate < O.Rate`. -/
def crossOK (O M : Order) : Bool :=
  match O.side with
  | .buy => !(decide (O.rate < M.rate))
  | .sell => !(decide (M.rate < O.rate))

/-- `runLimitMatching` as iteration of `runLimitStep`, with fuel standing in
for the tail recursion of the source (exhausted fuel stops the loop). -/
def runLimitMatching (cfg : Cfg) : Nat → Order → ExSt → Option Err × Order × ExSt
  | 0, O, s => (none, O, s)
  | fuel + 1, O, s =>
    match runLimitStep cfg O s with
    | .stop O' s' => (none, O', s')
    | .err e O' s' => (some e, O', s')
    | .next O' s' => runLimitMatching cfg fuel O' s'

/-- `service.matchingLimitOrder`: reload the order, skip non-Active or
non-positive remaining, run the loop, persist the aggressor, stamp if
matched. -/
def matchingLimitOrder (cfg : Cfg) (fuel : Nat) (s : ExSt) (oid : Nat) : Option Err × ExSt :=
  match getOrder s oid with
  | none => (some Err.orderNotFound, s)
  | some o =>
    if o.status ≠ Status.active then (none, s)
    else if o.remaining ≤ 0 then (none, s)
    else
      match runLimitMatching cfg fuel o s with
      | (some e, _, s') => (some e, s')
      | (none, o', s') =>
        if o'.status = Status.matched then
          (none, stampOrderFinished
            (setOrderStatusRemainingAndStampMatched s' o'.id o'.status o'.remaining) o'.id)
        else (none, setOrderStatusRemainingAndStampMatched s' o'.id o'.status o'.remaining)

/-- The escrow taken by `PlaceLimitOrder` (the `switch side` there):
Buy ⇒ `value * rate`, Sell ⇒ `value`. -/
def escrowAmt (side : Side) (rate value : ℚ) : ℚ :=
  match side with
  | .buy => value * rate
  | .sell => value

/-- The order record persisted by `PlaceLimitOrder`. -/
def newLimitOrder (userID : String) (side : Side) (rate value : ℚ) : Order :=
  { zeroOrder with
    userID := userID, typ := OrderType.limit, side := side, rate := rate
    value := value, remaining := value, status := Status.active }

/-- `service.PlaceLimitOrder`: validate, escrow `escrowAmt` in the side's
currency, persist, match. -/
def placeLimitOrder (cfg : Cfg) (fuel : Nat) (s : ExSt) (userID : String) (side : Side)
    (rate value : ℚ) : Except Err Nat × ExSt :=
  if value ≤ 0 then (.error Err.invalidValue, s)
  else if rate ≤ 0 then (.error Err.invalidRate, s)
  else
    match walletAdd s userID (getCurrency cfg side) (-escrowAmt side rate value) with
    | (some e, t) => (.error e, t)
    | (none, s1) =>
      match matchingLimitOrder cfg fuel
          (createOrder s1 (newLimitOrder userID side rate value)).2
          (createOrder s1 (newLimitOrder userID side rate value)).1 with
      | (some e, s3) => (.error e, s3)
      | (none, s3) =>
        (.ok (createOrder s1 (newLimitOrder userID side rate value)).1, s3)

/-- The refund credited by `CancelOrder` (the `switch order.Side` there):
Buy ⇒ `remaining * rate`, Sell ⇒ `remaining`. -/
def cancelAmt (o : Order) : ℚ :=
  match o.side with
  | .buy => o.remaining * o.rate
  | .sell => o.remaining

/-- `service.CancelOrder`: load; a non-Active order is a successful no-op;
otherwise set `Cancelled`, stamp finished, and credit the residual escrow
(Buy: `remaining*rate` of the buy currency, Sell: `remaining` of the sell
currency). -/
def cancelOrder (cfg : Cfg) (s : ExSt) (oid : Nat) : Option Err × ExSt :=
  match getOrder s oid with
  | none => (some Err.orderNotFound, s)
  | some o =>
    if o.status ≠ Status.active then (none, s)
    else
      let s1 := setOrderStatus s o.id Status.cancelled
      let s2 := stampOrderFinished s1 o.id
      match walletAdd s2 o.userID (getCurrency cfg o.side) (cancelAmt o) with
      | (some e, t) => (some e, t)
      | (none, s3) => (none, s3)

/-- The settlement tail of `runMarketMatching`: the aggressor receives the
counter currency minus its fee, pays `amount*rate` of its own side currency,
and the resting owner receives `(amount - fee)*rate`; no rebate. -/
def settleMarket (cfg : Cfg) (O M O2 : Order) (rate amount feeO feeM : ℚ) (s : ExSt) : StepRes :=
  match walletAdd s O.userID (getCurrency cfg M.side) (amount - feeO) with
  | (some e, t) => .err e O2 t
  | (none, s4) =>
    match walletAdd s4 O.userID (getCurrency cfg O.side) (-(amount * rate)) with
    | (some e, t) => .err e O2 t
    | (none, s5) =>
      match walletAdd s5 M.userID (getCurrency cfg O.side) ((amount - feeM) * rate) with
      | (some e, t) => .err e O2 t
      | (none, s6) =>
        if O2.status = Status.active then .next O2 s6 else .stop O2 s6

/-- The `runMarketMatching` body after a counter order was found (market
orders have no cross check). -/
def tradeMarket (cfg : Cfg) (O M : Order) (s : ExSt) : StepRes :=
  settleMarket cfg O M (fillOrder O (tradeAmount O M)) M.rate (tradeAmount O M)
    (cfg.fee O.userID O.side O.rate (tradeAmount O M))
    (cfg.fee M.userID M.side M.rate (tradeAmount O M))
    (insertHistory
      (setOrderStatusRemainingAndStampMatched
        (if M.remaining - tradeAmount O M ≤ 0 then stampOrderFinished s M.id else s)
        M.id (fillOrder M (tradeAmount O M)).status (fillOrder M (tradeAmount O M)).remaining)
      (fillOrder O (tradeAmount O M)) (fillOrder M (tradeAmount O M)) Side.buy M.rate
      (tradeAmount O M)
      (cfg.fee O.userID O.side O.rate (tradeAmount O M))
      (cfg.fee M.userID M.side M.rate (tradeAmount O M)))

/-- One pass of the `runMarketMatching` body. -/
def runMarketStep (cfg : Cfg) (O : Order) (s : ExSt) : StepRes :=
  match O.side with
  | .buy =>
    match getActiveSellLimitOrderLowestRate s with
    | none => .stop O s
    | some M => tradeMarket cfg O M s
  | .sell =>
    match getActiveBuyLimitOrderHighestRate s with
    | none => .stop O s
    | some M => tradeMarket cfg O M s

/-- `runMarketMatching` as iteration of `runMarketStep` with fuel. -/
def runMarketMatching (cfg : Cfg) : Nat → Order → ExSt → Option Err × Order × ExSt
  | 0, O, s => (none, O, s)
  | fuel + 1, O, s =>
    match runMarketStep cfg O s with
    | .stop O' s' => (none, O', s')
    | .err e O' s' => (some e, O', s')
    | .next O' s' => runMarketMatching cfg fuel O' s'

/-- `service.matchingMarketOrder`. -/
def matchingMarketOrder (cfg : Cfg) (fuel : Nat) (s : ExSt) (oid : Nat) : Option Err × ExSt :=
  match getOrder s oid with
  | none => (some Err.orderNotFound, s)
  | some o =>
    if o.status ≠ Status.active then (none, s)
    else if o.remaining ≤ 0 then (none, s)
    else
      match runMarketMatching cfg fuel o s with
      | (some e, _, s') => (some e, s')
      | (none, o', s') =>
        if o'.status = Status.matched then
          (none, stampOrderFinished
            (setOrderStatusRemainingAndStampMatched s' o'.id o'.status o'.remaining) o'.id)
        else (none, setOrderStatusRemainingAndStampMatched s' o'.id o'.status o'.remaining)

/-- The order record persisted by `PlaceMarketOrder` (note: `Rate` is left
at the zero value). -/
def newMarketOrder (userID : String) (side : Side) (value : ℚ) : Order :=
  { zeroOrder with
    userID := userID, typ := OrderType.market, side := side
    value := value, remaining := value, status := Status.active }

/-- `service.PlaceMarketOrder`: validate, persist with `Type = Market` and
zero rate with **no escrow debit**, run the market matching loop, then
`CancelOrder` the residual. -/
def placeMarketOrder (cfg : Cfg) (fuel : Nat) (s : ExSt) (userID : String) (side : Side)
    (value : ℚ) : Except Err Nat × ExSt :=
  if value ≤ 0 then (.error Err.invalidValue, s)
  else
    match matchingMarketOrder cfg fuel
        (createOrder s (newMarketOrder userID side value)).2
        (createOrder s (newMarketOrder userID side value)).1 with
    | (some e, s2) => (.error e, s2)
    | (none, s2) =>
      match cancelOrder cfg s2 (createOrder s (newMarketOrder userID side value)).1 with
      | (some e, s3) => (.error e, s3)
      | (none, s3) => (.ok (createOrder s (newMarketOrder userID side value)).1, s3)

/-- Result of `totpuser.service.VerifyUser`: success, `ErrInvalidPassword`,
or a propagated repository error. -/
inductive VerifyResult where
  | ok
  | invalidPassword
  | repoErr
  deriving DecidableEq

/-- `totpuser.service.VerifyUser` (`totpuser.go`): load the stored secret
(`secrets` models `Repository.GetUserOTPSecret`, `none` = repository error);
an empty secret succeeds immediately; otherwise TOTP verification (`verify`
models `totp.TOTP.Verify`, an injected collaborator) decides. -/
def verifyUser (secrets : String → Option String) (verify : String → String → Bool)
    (userID password : String) : VerifyResult :=
  match secrets userID with
  | none => .repoErr
  | some secret =>
    if secret = "" then .ok
    else if ¬verify secret password then .invalidPassword
    else .ok

/-- `recaptcha.testSite`. -/
def testSiteKey : String := "6LeIxAcTAAAAAJcZVRqyHh71UMIEGNQ_MXjiZKhI"

/-- `recaptcha.testSecret`. -/
def testSecretKey : String := "6LeIxAcTAAAAAGG-vFI1TnRWxMZNFuojJ4WifJWe"

/-- `recaptcha.service` (the HTTP client only matters on the network path,
which is represented symbolically below). -/
structure RecaptchaService where
  site : String
  secret : String
  deriving DecidableEq

/-- `recaptcha.NewWithClient`: empty site and secret fall back to the
built-in test keypair. -/
def newWithClient (site secret : String) : RecaptchaService :=
  if site = "" ∧ secret = "" then ⟨testSiteKey, testSecretKey⟩
  else ⟨site, secret⟩

/-- Outcome of `recaptcha.service.Verify`: either a short-circuit result
`(ok, nil)` computed without any network activity, or an HTTP POST to the
Google verify endpoint carrying the given form values. -/
inductive VerifyOutcome where
  | immediate (ok : Bool)
  | httpPost (secret remoteIP code : String)
  deriving DecidableEq

/-- `recaptcha.service.Verify`: an empty code short-circuits — `(true, nil)`
when the configured site key is the test site key, `(false, nil)` otherwise;
a non-empty code performs the HTTP request. -/
def recaptchaVerify (svc : RecaptchaService) (remoteIP code : String) : VerifyOutcome :=
  if code = "" then
    if svc.site = testSiteKey then .immediate true else .immediate false
  else .httpPost svc.secret remoteIP code

/-- How an order record may evolve during a matching run: identity fields
are fixed, and a nonnegative remaining stays nonnegative. -/
def FieldEvol (a b : Order) : Prop :=
  b.id = a.id ∧ b.userID = a.userID ∧ b.side = a.side ∧ b.rate = a.rate ∧
    b.value = a.value ∧ (0 ≤ a.remaining → 0 ≤ b.remaining)

/-- State evolution during a matching run: orders evolve pointwise, the id
counter is fixed, and the journal only grows by nonnegative entries. -/
def Evolves (s s' : ExSt) : Prop :=
  List.Forall₂ FieldEvol s.orders s'.orders ∧ s'.nextID = s.nextID ∧
    ∃ rest, s'.journal = rest ++ s.journal ∧ ∀ p ∈ rest, 0 ≤ p.2.2

/-- Well-formedness of an order store: ids are distinct and fresh w.r.t. the
counter, rates and remainings are nonnegative. -/
def BookWF (s : ExSt) : Prop :=
  (s.orders.map fun o => o.id).Nodup ∧
    ∀ o ∈ s.orders, o.id < s.nextID ∧ 0 ≤ o.rate ∧ 0 ≤ o.remaining

instance (s : ExSt) : Decidable (BookWF s) := by
  unfold BookWF
  infer_instance

/-- The fee-policy contract of the spec: `0 ≤ fee ≤ amount`. -/
def FeeOK (cfg : Cfg) : Prop :=
  ∀ u sd r a, 0 ≤ a → 0 ≤ cfg.fee u sd r a ∧ cfg.fee u sd r a ≤ a

/-- The reference fee policy of the tests (25 bps of the amount) with the
test currency pair. -/
def testCfg : Cfg :=
  { fee := fun _ _ _ a => a * (25 / 10000), buyCur := "A", sellCur := "B" }

/-- A zero-fee configuration (trivially satisfies the fee contract). -/
def zeroFeeCfg : Cfg :=
  { fee := fun _ _ _ _ => 0, buyCur := "A", sellCur := "B" }

/-- The empty initial state. -/
def emptySt : ExSt :=
  { orders := [], nextID := 0, now := 1, balances := fun _ _ => 0
    journal := [], history := [], addTrace := [] }

/-- Balances holding a single funded (user, currency) cell. -/
def onlyBal (u c : String) (q : ℚ) : String → String → ℚ :=
  fun u' c' => if u' = u ∧ c' = c then q else 0

/-- A resting Active Sell limit order (rate 2, remaining 50) used to
instantiate theorems at concrete inputs. -/
def wOrdM : Order :=
  { id := 1, userID := "2", typ := .limit, side := .sell, status := .active
    rate := 2, value := 50, remaining := 50, createdAt := 1, matchedAt := 0
    finishedAt := 0 }

/-- A Buy limit aggressor working copy (rate 2, remaining 50). -/
def wOrdO : Order :=
  { id := 2, userID := "1", typ := .limit, side := .buy, status := .active
    rate := 2, value := 50, remaining := 50, createdAt := 2, matchedAt := 0
    finishedAt := 0 }

/-- A book holding just the resting sell order wOrdM. -/
def wSt : ExSt :=
  { orders := [wOrdM], nextID := 3, now := 3, balances := fun _ _ => 0
    journal := [], history := [], addTrace := [] }

/-- An Active limit sell order with residual 20, for cancel theorems. -/
def cOrd : Order :=
  { id := 1, userID := "1", typ := .limit, side := .sell, status := .active
    rate := 2, value := 50, remaining := 20, createdAt := 1, matchedAt := 0
    finishedAt := 0 }

/-- A Matched order with zero residual, for cancel no-op theorems. -/
def dOrd : Order :=
  { id := 1, userID := "1", typ := .limit, side := .buy, status := .matched
    rate := 2, value := 50, remaining := 0, createdAt := 1, matchedAt := 2
    finishedAt := 2 }

/-- A book holding just the active order cOrd. -/
def cSt : ExSt :=
  { orders := [cOrd], nextID := 2, now := 2, balances := fun _ _ => 0
    journal := [], history := [], addTrace := [] }

/-- A book holding just the matched order dOrd. -/
def dSt : ExSt :=
  { orders := [dOrd], nextID := 2, now := 3, balances := fun _ _ => 0
    journal := [], history := [], addTrace := [] }

/-- A state whose only balance cell is deeply overdrawn, used to exercise
the escrow-failure path of limit placement. -/
def oSt : ExSt :=
  { orders := [], nextID := 0, now := 1, balances := onlyBal "1" "A" (-200)
    journal := [], history := [], addTrace := [] }

/-! ## Theorems -/

theorem walletAdd_orders (s : ExSt) (u c : String) (v : ℚ) :
    (walletAdd s u c v).2.orders = s.orders := by
  unfold walletAdd; split_ifs <;> rfl

theorem walletAdd_nextID (s : ExSt) (u c : String) (v : ℚ) :
    (walletAdd s u c v).2.nextID = s.nextID := by
  unfold walletAdd; split_ifs <;> rfl

theorem walletAdd_history (s : ExSt) (u c : String) (v : ℚ) :
    (walletAdd s u c v).2.history = s.history := by
  unfold walletAdd; split_ifs <;> rfl

theorem walletAdd_trace (s : ExSt) (u c : String) (v : ℚ)
    (h : (walletAdd s u c v).1 = none) :
    (walletAdd s u c v).2.addTrace = (u, c, v) :: s.addTrace := by
  unfold walletAdd at h ⊢; split_ifs at h ⊢ <;> simp_all

theorem walletAdd_fail (s : ExSt) (u c : String) (v : ℚ)
    (hv : v < 0) (hb : s.balances u c < v) :
    walletAdd s u c v = (some Err.balanceNotEnough, s) := by
  unfold walletAdd
  rw [if_neg (ne_of_lt hv), if_pos ⟨hv, hb⟩]

theorem walletAdd_nonneg (s : ExSt) (u c : String) (v : ℚ) (h : 0 ≤ v) :
    (walletAdd s u c v).1 = none ∧
    ∃ rest, (walletAdd s u c v).2.journal = rest ++ s.journal ∧ ∀ p ∈ rest, 0 ≤ p.2.2 := by
  unfold walletAdd
  split_ifs with h1 h2
  · exact ⟨rfl, [], by simp, by simp⟩
  · exact absurd h2.1 (not_lt.mpr h)
  · exact ⟨rfl, [(u, c, v)], by simp, by simpa using h⟩

theorem walletAdd_balances (s : ExSt) (u c : String) (v : ℚ)
    (h : (walletAdd s u c v).1 = none) :
    (walletAdd s u c v).2.balances u c = s.balances u c + v ∧
    ∀ u' c', ¬(u' = u ∧ c' = c) → (walletAdd s u c v).2.balances u' c' = s.balances u' c' := by
  unfold walletAdd at h ⊢
  split_ifs at h ⊢ with h1 h2
  · subst h1; simp
  · constructor
    · simp
    · intro u' c' hne
      simp [hne]

theorem find?_updateFirst (p : Order → Bool) (f : Order → Order)
    (hp : ∀ x, p x = true → p (f x) = true) :
    ∀ (l : List Order) (o : Order), l.find? p = some o →
      (updateFirst p f l).find? p = some (f o) := by
  intro l
  induction l with
  | nil => intro o h; simp [List.find?] at h
  | cons a t ih =>
    intro o h
    by_cases hpa : p a = true
    · rw [List.find?_cons_of_pos _ hpa] at h
      injection h with h; subst h
      rw [updateFirst, if_pos hpa, List.find?_cons_of_pos _ (hp a hpa)]
    · rw [List.find?_cons_of_neg _ (by simpa using hpa)] at h
      rw [updateFirst, if_neg (by simpa using hpa),
        List.find?_cons_of_neg _ (by simpa using hpa)]
      exact ih o h

theorem find?_id_of_nodup :
    ∀ (l : List Order), (l.map fun o => o.id).Nodup → ∀ M ∈ l,
      l.find? (fun o => o.id == M.id) = some M := by
  intro l
  induction l with
  | nil => simp
  | cons a t ih =>
    intro hnd M hM
    rw [List.map_cons, List.nodup_cons] at hnd
    rcases List.mem_cons.mp hM with rfl | hM
    · rw [List.find?_cons_of_pos _ (by simp)]
    · have hne : a.id ≠ M.id := fun he => hnd.1 (he ▸ List.mem_map_of_mem _ hM)
      rw [List.find?_cons_of_neg _ (by simpa using hne)]
      exact ih hnd.2 M hM

theorem find?_append_all_false (p : Order → Bool) (l2 : List Order) :
    ∀ l1 : List Order, (∀ x ∈ l1, p x = false) →
      (l1 ++ l2).find? p = l2.find? p := by
  intro l1
  induction l1 with
  | nil => intro _; rfl
  | cons a t ih =>
    intro h
    rw [List.cons_append, List.find?_cons_of_neg _ (by simp [h a (List.mem_cons_self a t)])]
    exact ih fun x hx => h x (List.mem_cons_of_mem a hx)

theorem exists_mem_updateFirst (p : Order → Bool) (f : Order → Order)
    (Q : Order → Prop) (hf : ∀ x, Q x → Q (f x)) :
    ∀ l : List Order, (∃ b ∈ l, Q b) → ∃ b ∈ updateFirst p f l, Q b := by
  intro l
  induction l with
  | nil => simp
  | cons a t ih =>
    rintro ⟨b, hb, hQ⟩
    by_cases hpa : p a
    · rcases List.mem_cons.mp hb with heq | hb2
      · refine ⟨f a, ?_, hf a (heq ▸ hQ)⟩
        rw [updateFirst, if_pos hpa]
        exact List.mem_cons_self _ _
      · refine ⟨b, ?_, hQ⟩
        rw [updateFirst, if_pos hpa]
        exact List.mem_cons_of_mem _ hb2
    · rcases List.mem_cons.mp hb with heq | hb2
      · refine ⟨a, ?_, heq ▸ hQ⟩
        rw [updateFirst, if_neg hpa]
        exact List.mem_cons_self _ _
      · rcases ih ⟨b, hb2, hQ⟩ with ⟨b', hb', hQ'⟩
        refine ⟨b', ?_, hQ'⟩
        rw [updateFirst, if_neg hpa]
        exact List.mem_cons_of_mem _ hb'

theorem fieldEvol_refl (a : Order) : FieldEvol a a :=
  ⟨rfl, rfl, rfl, rfl, rfl, fun h => h⟩

theorem fieldEvol_trans {a b c : Order} (h1 : FieldEvol a b) (h2 : FieldEvol b c) :
    FieldEvol a c :=
  ⟨h2.1.trans h1.1, h2.2.1.trans h1.2.1, h2.2.2.1.trans h1.2.2.1,
    h2.2.2.2.1.trans h1.2.2.2.1, h2.2.2.2.2.1.trans h1.2.2.2.2.1,
    fun h => h2.2.2.2.2.2 (h1.2.2.2.2.2 h)⟩

theorem forall₂_fieldEvol_refl : ∀ l : List Order, List.Forall₂ FieldEvol l l := by
  intro l
  induction l with
  | nil => exact List.Forall₂.nil
  | cons a t ih => exact List.Forall₂.cons (fieldEvol_refl a) ih

theorem forall₂_fieldEvol_trans :
    ∀ {l1 l2 l3 : List Order}, List.Forall₂ FieldEvol l1 l2 →
      List.Forall₂ FieldEvol l2 l3 → List.Forall₂ FieldEvol l1 l3 := by
  intro l1 l2 l3 h1 h2
  induction h1 generalizing l3 with
  | nil => cases h2; exact List.Forall₂.nil
  | cons hab h ih =>
    cases h2 with
    | cons hbc h' => exact List.Forall₂.cons (fieldEvol_trans hab hbc) (ih h')

theorem forall₂_updateFirst (p : Order → Bool) (f : Order → Order) :
    ∀ l : List Order, (∀ x ∈ l, p x = true → FieldEvol x (f x)) →
      List.Forall₂ FieldEvol l (updateFirst p f l) := by
  intro l
  induction l with
  | nil => exact fun _ => List.Forall₂.nil
  | cons a t ih =>
    intro h
    by_cases hpa : p a = true
    · rw [updateFirst, if_pos hpa]
      exact List.Forall₂.cons (h a (List.mem_cons_self a t) hpa) (forall₂_fieldEvol_refl t)
    · rw [updateFirst, if_neg (by simpa using hpa)]
      exact List.Forall₂.cons (fieldEvol_refl a)
        (ih fun x hx => h x (List.mem_cons_of_mem a hx))

theorem forall₂_exists_mem {l l' : List Order} (h : List.Forall₂ FieldEvol l l') :
    ∀ a ∈ l, ∃ b ∈ l', FieldEvol a b := by
  induction h with
  | nil => simp
  | cons hab _ ih =>
    intro a ha
    rcases List.mem_cons.mp ha with rfl | ha
    · exact ⟨_, List.mem_cons_self _ _, hab⟩
    · rcases ih a ha with ⟨b, hb, hEvol⟩
      exact ⟨b, List.mem_cons_of_mem _ hb, hEvol⟩

theorem bestSellAcc_cases (acc o : Order) :
    bestSellAcc acc o = acc ∨ (bestSellAcc acc o = o ∧ isActiveSellLimit o = true) := by
  unfold bestSellAcc
  split_ifs <;> simp_all

theorem bestBuyAcc_cases (acc o : Order) :
    bestBuyAcc acc o = acc ∨ (bestBuyAcc acc o = o ∧ isActiveBuyLimit o = true) := by
  unfold bestBuyAcc
  split_ifs <;> simp_all

theorem foldl_bestSellAcc_mem :
    ∀ (l : List Order) (acc : Order),
      l.foldl bestSellAcc acc = acc ∨
        (l.foldl bestSellAcc acc ∈ l ∧ isActiveSellLimit (l.foldl bestSellAcc acc) = true) := by
  intro l
  induction l with
  | nil => intro _; exact Or.inl rfl
  | cons a t ih =>
    intro acc
    rw [List.foldl_cons]
    rcases ih (bestSellAcc acc a) with h | ⟨hm, hf⟩
    · rw [h]
      rcases bestSellAcc_cases acc a with h2 | ⟨h2, h3⟩
      · exact Or.inl h2
      · exact Or.inr ⟨by rw [h2]; exact List.mem_cons_self a t, by rw [h2]; exact h3⟩
    · exact Or.inr ⟨List.mem_cons_of_mem a hm, hf⟩

theorem foldl_bestBuyAcc_mem :
    ∀ (l : List Order) (acc : Order),
      l.foldl bestBuyAcc acc = acc ∨
        (l.foldl bestBuyAcc acc ∈ l ∧ isActiveBuyLimit (l.foldl bestBuyAcc acc) = true) := by
  intro l
  induction l with
  | nil => intro _; exact Or.inl rfl
  | cons a t ih =>
    intro acc
    rw [List.foldl_cons]
    rcases ih (bestBuyAcc acc a) with h | ⟨hm, hf⟩
    · rw [h]
      rcases bestBuyAcc_cases acc a with h2 | ⟨h2, h3⟩
      · exact Or.inl h2
      · exact Or.inr ⟨by rw [h2]; exact List.mem_cons_self a t, by rw [h2]; exact h3⟩
    · exact Or.inr ⟨List.mem_cons_of_mem a hm, hf⟩

theorem getActiveSell_found (s : ExSt) (M : Order)
    (h : getActiveSellLimitOrderLowestRate s = some M) :
    M ∈ s.orders ∧ M.side = Side.sell ∧ M.status = Status.active ∧ M.typ = OrderType.limit := by
  unfold getActiveSellLimitOrderLowestRate at h
  by_cases hz : (s.orders.foldl bestSellAcc zeroOrder).createdAt = 0
  · simp [hz] at h
  · rw [if_neg hz] at h
    injection h with h
    rcases foldl_bestSellAcc_mem s.orders zeroOrder with heq | ⟨hm, hf⟩
    · exact absurd (by rw [heq]; rfl) hz
    · rw [h] at hm hf
      unfold isActiveSellLimit at hf
      simp only [Bool.and_eq_true, beq_iff_eq] at hf
      exact ⟨hm, hf.1.1, hf.1.2, hf.2⟩

theorem getActiveBuy_found (s : ExSt) (M : Order)
    (h : getActiveBuyLimitOrderHighestRate s = some M) :
    M ∈ s.orders ∧ M.side = Side.buy ∧ M.status = Status.active ∧ M.typ = OrderType.limit := by
  unfold getActiveBuyLimitOrderHighestRate at h
  by_cases hz : (s.orders.foldl bestBuyAcc zeroOrder).createdAt = 0
  · simp [hz] at h
  · rw [if_neg hz] at h
    injection h with h
    rcases foldl_bestBuyAcc_mem s.orders zeroOrder with heq | ⟨hm, hf⟩
    · exact absurd (by rw [heq]; rfl) hz
    · rw [h] at hm hf
      unfold isActiveBuyLimit at hf
      simp only [Bool.and_eq_true, beq_iff_eq] at hf
      exact ⟨hm, hf.1.1, hf.1.2, hf.2⟩

@[simp] theorem setOrderStatusRemainingAndStampMatched_balances (s : ExSt) (oid : Nat)
    (st : Status) (r : ℚ) :
    (setOrderStatusRemainingAndStampMatched s oid st r).balances = s.balances := rfl

@[simp] theorem setOrderStatusRemainingAndStampMatched_journal (s : ExSt) (oid : Nat)
    (st : Status) (r : ℚ) :
    (setOrderStatusRemainingAndStampMatched s oid st r).journal = s.journal := rfl

@[simp] theorem setOrderStatusRemainingAndStampMatched_history (s : ExSt) (oid : Nat)
    (st : Status) (r : ℚ) :
    (setOrderStatusRemainingAndStampMatched s oid st r).history = s.history := rfl

@[simp] theorem setOrderStatusRemainingAndStampMatched_addTrace (s : ExSt) (oid : Nat)
    (st : Status) (r : ℚ) :
    (setOrderStatusRemainingAndStampMatched s oid st r).addTrace = s.addTrace := rfl

@[simp] theorem setOrderStatusRemainingAndStampMatched_nextID (s : ExSt) (oid : Nat)
    (st : Status) (r : ℚ) :
    (setOrderStatusRemainingAndStampMatched s oid st r).nextID = s.nextID := rfl

@[simp] theorem stampOrderFinished_balances (s : ExSt) (oid : Nat) :
    (stampOrderFinished s oid).balances = s.balances := rfl

@[simp] theorem stampOrderFinished_journal (s : ExSt) (oid : Nat) :
    (stampOrderFinished s oid).journal = s.journal := rfl

@[simp] theorem stampOrderFinished_history (s : ExSt) (oid : Nat) :
    (stampOrderFinished s oid).history = s.history := rfl

@[simp] theorem stampOrderFinished_addTrace (s : ExSt) (oid : Nat) :
    (stampOrderFinished s oid).addTrace = s.addTrace := rfl

@[simp] theorem stampOrderFinished_nextID (s : ExSt) (oid : Nat) :
    (stampOrderFinished s oid).nextID = s.nextID := rfl

@[simp] theorem insertHistory_balances (s : ExSt) (src dst : Order) (sd : Side)
    (r a f1 f2 : ℚ) : (insertHistory s src dst sd r a f1 f2).balances = s.balances := rfl

@[simp] theorem insertHistory_journal (s : ExSt) (src dst : Order) (sd : Side)
    (r a f1 f2 : ℚ) : (insertHistory s src dst sd r a f1 f2).journal = s.journal := rfl

@[simp] theorem insertHistory_addTrace (s : ExSt) (src dst : Order) (sd : Side)
    (r a f1 f2 : ℚ) : (insertHistory s src dst sd r a f1 f2).addTrace = s.addTrace := rfl

@[simp] theorem insertHistory_orders (s : ExSt) (src dst : Order) (sd : Side)
    (r a f1 f2 : ℚ) : (insertHistory s src dst sd r a f1 f2).orders = s.orders := rfl

@[simp] theorem insertHistory_nextID (s : ExSt) (src dst : Order) (sd : Side)
    (r a f1 f2 : ℚ) : (insertHistory s src dst sd r a f1 f2).nextID = s.nextID := rfl

@[simp] theorem insertHistory_history (s : ExSt) (src dst : Order) (sd : Side)
    (r a f1 f2 : ℚ) :
    (insertHistory s src dst sd r a f1 f2).history
      = ⟨src, dst, sd, r, a, f1, f2⟩ :: s.history := rfl

@[simp] theorem stamp_ite_history (c : Prop) [Decidable c] (s : ExSt) (oid : Nat) :
    (if c then stampOrderFinished s oid else s).history = s.history := by
  split_ifs <;> rfl

@[simp] theorem stamp_ite_addTrace (c : Prop) [Decidable c] (s : ExSt) (oid : Nat) :
    (if c then stampOrderFinished s oid else s).addTrace = s.addTrace := by
  split_ifs <;> rfl

@[simp] theorem stamp_ite_journal (c : Prop) [Decidable c] (s : ExSt) (oid : Nat) :
    (if c then stampOrderFinished s oid else s).journal = s.journal := by
  split_ifs <;> rfl

@[simp] theorem stamp_ite_balances (c : Prop) [Decidable c] (s : ExSt) (oid : Nat) :
    (if c then stampOrderFinished s oid else s).balances = s.balances := by
  split_ifs <;> rfl

@[simp] theorem stamp_ite_nextID (c : Prop) [Decidable c] (s : ExSt) (oid : Nat) :
    (if c then stampOrderFinished s oid else s).nextID = s.nextID := by
  split_ifs <;> rfl

theorem fillOrder_remaining (o : Order) (a : ℚ) :
    (fillOrder o a).remaining = o.remaining - a := by
  unfold fillOrder; split_ifs <;> rfl

theorem fillOrder_id (o : Order) (a : ℚ) : (fillOrder o a).id = o.id := by
  unfold fillOrder; split_ifs <;> rfl

theorem fillOrder_userID (o : Order) (a : ℚ) : (fillOrder o a).userID = o.userID := by
  unfold fillOrder; split_ifs <;> rfl

theorem fillOrder_side (o : Order) (a : ℚ) : (fillOrder o a).side = o.side := by
  unfold fillOrder; split_ifs <;> rfl

theorem fillOrder_rate (o : Order) (a : ℚ) : (fillOrder o a).rate = o.rate := by
  unfold fillOrder; split_ifs <;> rfl

theorem fillOrder_value (o : Order) (a : ℚ) : (fillOrder o a).value = o.value := by
  unfold fillOrder; split_ifs <;> rfl

theorem tradeAmount_min (O M : Order) :
    tradeAmount O M = min O.remaining M.remaining := by
  unfold tradeAmount
  rw [min_comm, min_def]

theorem tradeAmount_le_rest (O M : Order) : tradeAmount O M ≤ M.remaining := by
  unfold tradeAmount
  split_ifs with h
  · exact le_refl _
  · exact (lt_of_not_le h).le

theorem tradeAmount_le_agg (O M : Order) : tradeAmount O M ≤ O.remaining := by
  unfold tradeAmount
  split_ifs with h
  · exact h
  · exact le_refl _

theorem tradeAmount_nonneg (O M : Order) (hO : 0 ≤ O.remaining) (hM : 0 ≤ M.remaining) :
    0 ≤ tradeAmount O M := by
  unfold tradeAmount
  split_ifs <;> assumption

theorem settleRebate_ok (cfg : Cfg) (O O2 : Order) (rate amount : ℚ) (s : ExSt)
    (hok : (settleRebate cfg O O2 rate amount s).isErr = false) :
    ∃ s' reb, settleRebate cfg O O2 rate amount s
        = (if O2.status = Status.active then StepRes.next O2 s' else StepRes.stop O2 s') ∧
      s'.addTrace = reb ++ s.addTrace ∧ (O.side = Side.sell → s' = s) ∧
      s'.history = s.history ∧ s'.orders = s.orders := by
  unfold settleRebate at hok ⊢
  by_cases hcond : O.side = Side.buy ∧ ¬O.rate = rate
  · rw [if_pos hcond] at hok ⊢
    by_cases hpos : 0 < amount * (O.rate - rate)
    · rw [if_pos hpos] at hok ⊢
      rcases hw : walletAdd s O.userID (getCurrency cfg O.side) (amount * (O.rate - rate))
        with ⟨e, s6⟩
      cases e with
      | some e1 => rw [hw] at hok; simp [StepRes.isErr] at hok
      | none =>
        rw [hw] at hok
        refine ⟨s6, [(O.userID, getCurrency cfg O.side, amount * (O.rate - rate))],
          rfl, ?_, ?_, ?_, ?_⟩
        · have h1 := walletAdd_trace s O.userID (getCurrency cfg O.side)
            (amount * (O.rate - rate)) (by rw [hw])
          rw [hw] at h1
          exact h1
        · intro hsell
          exact absurd (hcond.1.symm.trans hsell) (by decide)
        · have h1 := walletAdd_history s O.userID (getCurrency cfg O.side)
            (amount * (O.rate - rate))
          rw [hw] at h1
          exact h1
        · have h1 := walletAdd_orders s O.userID (getCurrency cfg O.side)
            (amount * (O.rate - rate))
          rw [hw] at h1
          exact h1
    · rw [if_neg hpos]
      exact ⟨s, [], rfl, rfl, fun _ => rfl, rfl, rfl⟩
  · rw [if_neg hcond]
    exact ⟨s, [], rfl, rfl, fun _ => rfl, rfl, rfl⟩

theorem settleLimit_ok (cfg : Cfg) (O M O2 : Order) (rate amount feeO feeM : ℚ) (s : ExSt)
    (hok : (settleLimit cfg O M O2 rate amount feeO feeM s).isErr = false) :
    ∃ s', settleLimit cfg O M O2 rate amount feeO feeM s
        = (if O2.status = Status.active then StepRes.next O2 s' else StepRes.stop O2 s') ∧
      (O.side = Side.buy → ∃ reb, s'.addTrace =
          reb ++ (M.userID, getCurrency cfg O.side, (amount - feeM) * rate) ::
            (O.userID, getCurrency cfg M.side, amount - feeO) :: s.addTrace) ∧
      (O.side = Side.sell → s'.addTrace =
          (M.userID, getCurrency cfg O.side, amount - feeM) ::
            (O.userID, getCurrency cfg M.side, (amount - feeO) * rate) :: s.addTrace) ∧
      s'.history = s.history ∧ s'.orders = s.orders := by
  unfold settleLimit at hok ⊢
  cases hside : O.side
  case buy =>
    rw [hside] at hok
    dsimp only at hok ⊢
    rcases hw1 : walletAdd s O.userID (getCurrency cfg M.side) (amount - feeO) with ⟨e1, s4⟩
    rw [hw1] at hok
    cases e1 with
    | some e => simp [StepRes.isErr] at hok
    | none =>
      dsimp only at hok ⊢
      rcases hw2 : walletAdd s4 M.userID (getCurrency cfg Side.buy) ((amount - feeM) * rate)
        with ⟨e2, s5⟩
      rw [hw2] at hok
      cases e2 with
      | some e => simp [StepRes.isErr] at hok
      | none =>
        obtain ⟨s', reb, hres, htr, _, hhist, hord⟩ :=
          settleRebate_ok cfg O O2 rate amount s5 hok
        have h4 := walletAdd_trace s O.userID (getCurrency cfg M.side) (amount - feeO)
          (by rw [hw1])
        rw [hw1] at h4
        have h5 := walletAdd_trace s4 M.userID (getCurrency cfg Side.buy) ((amount - feeM) * rate)
          (by rw [hw2])
        rw [hw2] at h5
        have h4h := walletAdd_history s O.userID (getCurrency cfg M.side) (amount - feeO)
        rw [hw1] at h4h
        have h5h := walletAdd_history s4 M.userID (getCurrency cfg Side.buy) ((amount - feeM) * rate)
        rw [hw2] at h5h
        have h4o := walletAdd_orders s O.userID (getCurrency cfg M.side) (amount - feeO)
        rw [hw1] at h4o
        have h5o := walletAdd_orders s4 M.userID (getCurrency cfg Side.buy) ((amount - feeM) * rate)
        rw [hw2] at h5o
        refine ⟨s', hres, fun _ => ⟨reb, ?_⟩, fun hc => absurd hc (by decide), ?_, ?_⟩
        · rw [htr, h5, h4]
        · rw [hhist, h5h, h4h]
        · rw [hord, h5o, h4o]
  case sell =>
    rw [hside] at hok
    dsimp only at hok ⊢
    rcases hw1 : walletAdd s O.userID (getCurrency cfg M.side) ((amount - feeO) * rate)
      with ⟨e1, s4⟩
    rw [hw1] at hok
    cases e1 with
    | some e => simp [StepRes.isErr] at hok
    | none =>
      dsimp only at hok ⊢
      rcases hw2 : walletAdd s4 M.userID (getCurrency cfg Side.sell) (amount - feeM) with ⟨e2, s5⟩
      rw [hw2] at hok
      cases e2 with
      | some e => simp [StepRes.isErr] at hok
      | none =>
        obtain ⟨s', reb, hres, htr, hsell, hhist, hord⟩ :=
          settleRebate_ok cfg O O2 rate amount s5 hok
        have hs5 : s' = s5 := hsell hside
        subst hs5
        have h4 := walletAdd_trace s O.userID (getCurrency cfg M.side) ((amount - feeO) * rate)
          (by rw [hw1])
        rw [hw1] at h4
        have h5 := walletAdd_trace s4 M.userID (getCurrency cfg Side.sell) (amount - feeM)
          (by rw [hw2])
        rw [hw2] at h5
        have h4h := walletAdd_history s O.userID (getCurrency cfg M.side) ((amount - feeO) * rate)
        rw [hw1] at h4h
        have h5h := walletAdd_history s4 M.userID (getCurrency cfg Side.sell) (amount - feeM)
        rw [hw2] at h5h
        have h4o := walletAdd_orders s O.userID (getCurrency cfg M.side) ((amount - feeO) * rate)
        rw [hw1] at h4o
        have h5o := walletAdd_orders s4 M.userID (getCurrency cfg Side.sell) (amount - feeM)
        rw [hw2] at h5o
        refine ⟨s', hres, fun hc => absurd hc (by decide), fun _ => ?_, ?_, ?_⟩
        · rw [h5, h4]
        · rw [h5h, h4h]
        · rw [h5o, h4o]

theorem tradeLimit_ok (cfg : Cfg) (O M : Order) (s : ExSt)
    (hok : (tradeLimit cfg O M s).isErr = false) :
    ∃ s', tradeLimit cfg O M s
        = (if (fillOrder O (tradeAmount O M)).status = Status.active
            then StepRes.next (fillOrder O (tradeAmount O M)) s'
            else StepRes.stop (fillOrder O (tradeAmount O M)) s') ∧
      (O.side = Side.buy → ∃ reb, s'.addTrace =
          reb ++ (M.userID, getCurrency cfg O.side,
              (tradeAmount O M - cfg.fee M.userID M.side M.rate (tradeAmount O M)) * M.rate) ::
            (O.userID, getCurrency cfg M.side,
              tradeAmount O M - cfg.fee O.userID O.side O.rate (tradeAmount O M))
            :: s.addTrace) ∧
      (O.side = Side.sell → s'.addTrace =
          (M.userID, getCurrency cfg O.side,
              tradeAmount O M - cfg.fee M.userID M.side M.rate (tradeAmount O M)) ::
            (O.userID, getCurrency cfg M.side,
              (tradeAmount O M - cfg.fee O.userID O.side O.rate (tradeAmount O M)) * M.rate)
            :: s.addTrace) ∧
      (s'.history = (⟨fillOrder O (tradeAmount O M), fillOrder M (tradeAmount O M), Side.buy,
          M.rate, tradeAmount O M, cfg.fee O.userID O.side O.rate (tradeAmount O M),
          cfg.fee M.userID M.side M.rate (tradeAmount O M)⟩ : Hist) :: s.history) ∧
      s'.orders = (setOrderStatusRemainingAndStampMatched
          (if M.remaining - tradeAmount O M ≤ 0 then stampOrderFinished s M.id else s)
          M.id (fillOrder M (tradeAmount O M)).status
          (fillOrder M (tradeAmount O M)).remaining).orders := by
  unfold tradeLimit at hok ⊢
  obtain ⟨s', hres, htrB, htrS, hhist, hord⟩ := settleLimit_ok cfg O M _ _ _ _ _ _ hok
  refine ⟨s', hres, ?_, ?_, ?_, ?_⟩
  · intro hb
    obtain ⟨reb, htr⟩ := htrB hb
    refine ⟨reb, ?_⟩
    rw [htr]
    simp
  · intro hsell
    rw [htrS hsell]
    simp
  · rw [hhist]
    simp
  · rw [hord]
    simp

theorem counterLookup_found (O : Order) (s : ExSt) (M : Order)
    (h : counterLookup O s = some M) :
    M ∈ s.orders ∧ M.status = Status.active ∧ M.typ = OrderType.limit ∧
      (O.side = Side.buy → M.side = Side.sell) ∧
      (O.side = Side.sell → M.side = Side.buy) := by
  unfold counterLookup at h
  cases hside : O.side
  case buy =>
    rw [hside] at h
    dsimp only at h
    obtain ⟨hm, hs, hst, ht⟩ := getActiveSell_found s M h
    exact ⟨hm, hst, ht, fun _ => hs, fun hc => absurd hc (by decide)⟩
  case sell =>
    rw [hside] at h
    dsimp only at h
    obtain ⟨hm, hs, hst, ht⟩ := getActiveBuy_found s M h
    exact ⟨hm, hst, ht, fun hc => absurd hc (by decide), fun _ => hs⟩

theorem runLimitStep_eq_trade (cfg : Cfg) (O M : Order) (s : ExSt)
    (hM : counterLookup O s = some M) (hcross : crossOK O M = true) :
    runLimitStep cfg O s = tradeLimit cfg O M s := by
  unfold runLimitStep counterLookup crossOK at *
  cases hside : O.side
  case buy =>
    rw [hside] at hM hcross
    dsimp only at hM hcross ⊢
    simp only [hM]
    have hlt : ¬(O.rate < M.rate) := by simpa using hcross
    rw [if_neg hlt]
  case sell =>
    rw [hside] at hM hcross
    dsimp only at hM hcross ⊢
    simp only [hM]
    have hlt : ¬(M.rate < O.rate) := by simpa using hcross
    rw [if_neg hlt]

theorem runLimitStep_stop_of_crossFail (cfg : Cfg) (O M : Order) (s : ExSt)
    (hM : counterLookup O s = some M) (hcross : crossOK O M = false) :
    runLimitStep cfg O s = .stop O s := by
  unfold runLimitStep counterLookup crossOK at *
  cases hside : O.side
  case buy =>
    rw [hside] at hM hcross
    dsimp only at hM hcross ⊢
    simp only [hM]
    have hlt : O.rate < M.rate := by simpa using hcross
    rw [if_pos hlt]
  case sell =>
    rw [hside] at hM hcross
    dsimp only at hM hcross ⊢
    simp only [hM]
    have hlt : M.rate < O.rate := by simpa using hcross
    rw [if_pos hlt]

theorem find?_persistM (cond : Prop) [Decidable cond] (s : ExSt) (M : Order)
    (st : Status) (r : ℚ)
    (hids : (s.orders.map fun o => o.id).Nodup) (hMmem : M ∈ s.orders) :
    (((setOrderStatusRemainingAndStampMatched
        (if cond then stampOrderFinished s M.id else s) M.id st r).orders.find?
      fun x => x.id == M.id).map fun o => o.remaining) = some r := by
  have hfound : s.orders.find? (fun x => x.id == M.id) = some M :=
    find?_id_of_nodup s.orders hids M hMmem
  by_cases hc : cond
  · rw [if_pos hc]
    have h1 := find?_updateFirst (fun x => x.id == M.id)
      (fun x => { x with finishedAt := s.now }) (fun x hx => hx) s.orders M hfound
    have h2 := find?_updateFirst (fun x => x.id == M.id)
      (fun x => { x with status := st, remaining := r, matchedAt := (stampOrderFinished s M.id).now })
      (fun x hx => hx)
      (stampOrderFinished s M.id).orders ({ M with finishedAt := s.now }) h1
    have horder : (setOrderStatusRemainingAndStampMatched (stampOrderFinished s M.id)
          M.id st r).orders
        = updateFirst (fun x => x.id == M.id)
          (fun x => { x with status := st, remaining := r, matchedAt := (stampOrderFinished s M.id).now })
          (stampOrderFinished s M.id).orders := rfl
    rw [horder, h2]
    rfl
  · rw [if_neg hc]
    have h2 := find?_updateFirst (fun x => x.id == M.id)
      (fun x => { x with status := st, remaining := r, matchedAt := s.now })
      (fun x hx => hx) s.orders M hfound
    have horder : (setOrderStatusRemainingAndStampMatched s M.id st r).orders
        = updateFirst (fun x => x.id == M.id)
          (fun x => { x with status := st, remaining := r, matchedAt := s.now })
          s.orders := rfl
    rw [horder, h2]
    rfl

theorem cancelOrder_active (cfg : Cfg) (s : ExSt) (oid : Nat) (o : Order)
    (h : getOrder s oid = some o) (hact : o.status = Status.active)
    (hamt : 0 ≤ cancelAmt o) :
    ∃ s', cancelOrder cfg s oid = (none, s') ∧
      s'.balances o.userID (getCurrency cfg o.side)
        = s.balances o.userID (getCurrency cfg o.side) + cancelAmt o ∧
      ∀ u' c', ¬(u' = o.userID ∧ c' = getCurrency cfg o.side) →
        s'.balances u' c' = s.balances u' c' := by
  rcases hw : walletAdd (stampOrderFinished (setOrderStatus s o.id Status.cancelled) o.id)
      o.userID (getCurrency cfg o.side) (cancelAmt o) with ⟨e, s3⟩
  have hone := walletAdd_nonneg (stampOrderFinished (setOrderStatus s o.id Status.cancelled) o.id)
      o.userID (getCurrency cfg o.side) (cancelAmt o) hamt
  rw [hw] at hone
  obtain ⟨he, -⟩ := hone
  simp only at he
  subst he
  have hbal := walletAdd_balances (stampOrderFinished (setOrderStatus s o.id Status.cancelled) o.id)
      o.userID (getCurrency cfg o.side) (cancelAmt o) (by rw [hw])
  rw [hw] at hbal
  refine ⟨s3, ?_, hbal.1, fun u' c' hne => hbal.2 u' c' hne⟩
  simp only [cancelOrder, h, hact, ne_eq, not_true_eq_false, if_false, hw]

theorem cancelOrder_noop (cfg : Cfg) (s : ExSt) (oid : Nat) (o : Order)
    (h : getOrder s oid = some o) (hst : o.status ≠ Status.active) :
    cancelOrder cfg s oid = (none, s) := by
  simp only [cancelOrder, h, hst, ne_eq, not_false_eq_true, if_true]

theorem cancelOrder_sets_cancelled (cfg : Cfg) (s : ExSt) (oid : Nat) (o : Order)
    (h : getOrder s oid = some o) (hact : o.status = Status.active) :
    ∀ e s', cancelOrder cfg s oid = (e, s') →
      ∃ o', getOrder s' oid = some o' ∧ o'.status = Status.cancelled := by
  intro e s' hc
  have hid : o.id = oid := by simpa using List.find?_some h
  subst hid
  have hor : s'.orders = (stampOrderFinished (setOrderStatus s o.id Status.cancelled) o.id).orders := by
    rcases hw : walletAdd (stampOrderFinished (setOrderStatus s o.id Status.cancelled) o.id)
        o.userID (getCurrency cfg o.side) (cancelAmt o) with ⟨e2, s3⟩
    have ho3 : s3.orders = (stampOrderFinished (setOrderStatus s o.id Status.cancelled) o.id).orders := by
      have := walletAdd_orders (stampOrderFinished (setOrderStatus s o.id Status.cancelled) o.id)
        o.userID (getCurrency cfg o.side) (cancelAmt o)
      rw [hw] at this
      exact this
    simp only [cancelOrder, h, hact, ne_eq, not_true_eq_false, if_false, hw] at hc
    cases e2 with
    | none =>
      have : s' = s3 := congrArg Prod.snd hc.symm
      rw [this, ho3]
    | some e3 =>
      have : s' = s3 := congrArg Prod.snd hc.symm
      rw [this, ho3]
  have hfind1 : (setOrderStatus s o.id Status.cancelled).orders.find? (fun x => x.id == o.id)
      = some { o with status := Status.cancelled } := by
    exact find?_updateFirst (fun x => x.id == o.id)
      (fun x => { x with status := Status.cancelled }) (fun x hx => hx) s.orders o h
  have hfind2 : (stampOrderFinished (setOrderStatus s o.id Status.cancelled) o.id).orders.find?
        (fun x => x.id == o.id)
      = some { { o with status := Status.cancelled } with
          finishedAt := (setOrderStatus s o.id Status.cancelled).now } := by
    exact find?_updateFirst (fun x => x.id == o.id)
      (fun x => { x with finishedAt := (setOrderStatus s o.id Status.cancelled).now })
      (fun x hx => hx) (setOrderStatus s o.id Status.cancelled).orders
      { o with status := Status.cancelled } hfind1
  refine ⟨{ { o with status := Status.cancelled } with
      finishedAt := (setOrderStatus s o.id Status.cancelled).now }, ?_, rfl⟩
  show getOrder s' o.id = _
  unfold getOrder
  rw [hor]
  exact hfind2

theorem settleRebate_history_all (cfg : Cfg) (O O2 : Order) (rate amount : ℚ) (s : ExSt) :
    (settleRebate cfg O O2 rate amount s).st.history = s.history := by
  unfold settleRebate
  by_cases h1 : O.side = Side.buy ∧ ¬O.rate = rate
  · rw [if_pos h1]
    by_cases h2 : 0 < amount * (O.rate - rate)
    · rw [if_pos h2]
      rcases hw : walletAdd s O.userID (getCurrency cfg O.side) (amount * (O.rate - rate))
        with ⟨e, t⟩
      have hh := walletAdd_history s O.userID (getCurrency cfg O.side) (amount * (O.rate - rate))
      rw [hw] at hh
      cases e with
      | some e1 => exact hh
      | none =>
        dsimp only
        split_ifs <;> exact hh
    · rw [if_neg h2]
      split_ifs <;> rfl
  · rw [if_neg h1]
    split_ifs <;> rfl

theorem settleLimit_history_all (cfg : Cfg) (O M O2 : Order) (rate amount feeO feeM : ℚ)
    (s : ExSt) :
    (settleLimit cfg O M O2 rate amount feeO feeM s).st.history = s.history := by
  unfold settleLimit
  cases hside : O.side
  case buy =>
    dsimp only
    rcases hw1 : walletAdd s O.userID (getCurrency cfg M.side) (amount - feeO) with ⟨e1, s4⟩
    have h4 := walletAdd_history s O.userID (getCurrency cfg M.side) (amount - feeO)
    rw [hw1] at h4
    cases e1 with
    | some e => exact h4
    | none =>
      dsimp only
      rcases hw2 : walletAdd s4 M.userID (getCurrency cfg Side.buy) ((amount - feeM) * rate)
        with ⟨e2, s5⟩
      have h5 := walletAdd_history s4 M.userID (getCurrency cfg Side.buy) ((amount - feeM) * rate)
      rw [hw2] at h5
      cases e2 with
      | some e => exact h5.trans h4
      | none => exact (settleRebate_history_all cfg O O2 rate amount s5).trans (h5.trans h4)
  case sell =>
    dsimp only
    rcases hw1 : walletAdd s O.userID (getCurrency cfg M.side) ((amount - feeO) * rate)
      with ⟨e1, s4⟩
    have h4 := walletAdd_history s O.userID (getCurrency cfg M.side) ((amount - feeO) * rate)
    rw [hw1] at h4
    cases e1 with
    | some e => exact h4
    | none =>
      dsimp only
      rcases hw2 : walletAdd s4 M.userID (getCurrency cfg Side.sell) (amount - feeM)
        with ⟨e2, s5⟩
      have h5 := walletAdd_history s4 M.userID (getCurrency cfg Side.sell) (amount - feeM)
      rw [hw2] at h5
      cases e2 with
      | some e => exact h5.trans h4
      | none => exact (settleRebate_history_all cfg O O2 rate amount s5).trans (h5.trans h4)

theorem settleMarket_history_all (cfg : Cfg) (O M O2 : Order) (rate amount feeO feeM : ℚ)
    (s : ExSt) :
    (settleMarket cfg O M O2 rate amount feeO feeM s).st.history = s.history := by
  unfold settleMarket
  rcases hw1 : walletAdd s O.userID (getCurrency cfg M.side) (amount - feeO) with ⟨e1, s4⟩
  have h4 := walletAdd_history s O.userID (getCurrency cfg M.side) (amount - feeO)
  rw [hw1] at h4
  cases e1 with
  | some e => exact h4
  | none =>
    dsimp only
    rcases hw2 : walletAdd s4 O.userID (getCurrency cfg O.side) (-(amount * rate)) with ⟨e2, s5⟩
    have h5 := walletAdd_history s4 O.userID (getCurrency cfg O.side) (-(amount * rate))
    rw [hw2] at h5
    cases e2 with
    | some e => exact h5.trans h4
    | none =>
      dsimp only
      rcases hw3 : walletAdd s5 M.userID (getCurrency cfg O.side) ((amount - feeM) * rate)
        with ⟨e3, s6⟩
      have h6 := walletAdd_history s5 M.userID (getCurrency cfg O.side) ((amount - feeM) * rate)
      rw [hw3] at h6
      cases e3 with
      | some e => exact h6.trans (h5.trans h4)
      | none =>
        dsimp only
        split_ifs <;> exact h6.trans (h5.trans h4)

theorem tradeLimit_history (cfg : Cfg) (O M : Order) (s : ExSt) :
    ∃ h', (tradeLimit cfg O M s).st.history = h' :: s.history ∧ h'.side = Side.buy := by
  unfold tradeLimit
  refine ⟨⟨fillOrder O (tradeAmount O M), fillOrder M (tradeAmount O M), Side.buy, M.rate,
    tradeAmount O M, cfg.fee O.userID O.side O.rate (tradeAmount O M),
    cfg.fee M.userID M.side M.rate (tradeAmount O M)⟩, ?_, rfl⟩
  rw [settleLimit_history_all]
  simp

theorem tradeMarket_history (cfg : Cfg) (O M : Order) (s : ExSt) :
    ∃ h', (tradeMarket cfg O M s).st.history = h' :: s.history ∧ h'.side = Side.buy := by
  unfold tradeMarket
  refine ⟨⟨fillOrder O (tradeAmount O M), fillOrder M (tradeAmount O M), Side.buy, M.rate,
    tradeAmount O M, cfg.fee O.userID O.side O.rate (tradeAmount O M),
    cfg.fee M.userID M.side M.rate (tradeAmount O M)⟩, ?_, rfl⟩
  rw [settleMarket_history_all]
  simp

/-- **C8.** Every trade-history entry inserted by a matching iteration —
limit or market — records `Buy` as the aggressor side, regardless of the
aggressor order's actual side: a step either leaves the history unchanged
or prepends exactly one entry whose side field is `Buy`. -/
theorem claim_C8_history_aggressor_side : ∀ (cfg : Cfg) (O : Order) (s : ExSt),
    ((runLimitStep cfg O s).st.history = s.history ∨
      ∃ h', (runLimitStep cfg O s).st.history = h' :: s.history ∧ h'.side = Side.buy)
    ∧ ((runMarketStep cfg O s).st.history = s.history ∨
      ∃ h', (runMarketStep cfg O s).st.history = h' :: s.history ∧ h'.side = Side.buy) := by
  intro cfg O s
  constructor
  · unfold runLimitStep
    cases hside : O.side
    case buy =>
      cases hM : getActiveSellLimitOrderLowestRate s with
      | none => left; rfl
      | some M =>
        dsimp only
        by_cases hc : O.rate < M.rate
        · rw [if_pos hc]; left; rfl
        · rw [if_neg hc]; right; exact tradeLimit_history cfg O M s
    case sell =>
      cases hM : getActiveBuyLimitOrderHighestRate s with
      | none => left; rfl
      | some M =>
        dsimp only
        by_cases hc : M.rate < O.rate
        · rw [if_pos hc]; left; rfl
        · rw [if_neg hc]; right; exact tradeLimit_history cfg O M s
  · unfold runMarketStep
    cases hside : O.side
    case buy =>
      cases hM : getActiveSellLimitOrderLowestRate s with
      | none => left; rfl
      | some M => right; exact tradeMarket_history cfg O M s
    case sell =>
      cases hM : getActiveBuyLimitOrderHighestRate s with
      | none => left; rfl
      | some M => right; exact tradeMarket_history cfg O M s

theorem evolves_refl (s : ExSt) : Evolves s s :=
  ⟨forall₂_fieldEvol_refl s.orders, rfl, [], rfl, by simp⟩

theorem evolves_trans {s1 s2 s3 : ExSt} (h1 : Evolves s1 s2) (h2 : Evolves s2 s3) :
    Evolves s1 s3 := by
  obtain ⟨hf1, hn1, r1, hj1, hp1⟩ := h1
  obtain ⟨hf2, hn2, r2, hj2, hp2⟩ := h2
  refine ⟨forall₂_fieldEvol_trans hf1 hf2, hn2.trans hn1, r2 ++ r1, ?_, ?_⟩
  · rw [hj2, hj1, List.append_assoc]
  · intro p hp
    rcases List.mem_append.mp hp with h | h
    · exact hp2 p h
    · exact hp1 p h

theorem forall₂_map_id : ∀ {l l' : List Order}, List.Forall₂ FieldEvol l l' →
    l'.map (fun o => o.id) = l.map (fun o => o.id) := by
  intro l l' h
  induction h with
  | nil => rfl
  | cons hab _ ih => simp [ih, hab.1]

theorem forall₂_exists_mem_right : ∀ {l l' : List Order}, List.Forall₂ FieldEvol l l' →
    ∀ b ∈ l', ∃ a ∈ l, FieldEvol a b := by
  intro l l' h
  induction h with
  | nil => simp
  | cons hab _ ih =>
    intro b hb
    rcases List.mem_cons.mp hb with rfl | hb
    · exact ⟨_, List.mem_cons_self _ _, hab⟩
    · rcases ih b hb with ⟨a, ha, hEvol⟩
      exact ⟨a, List.mem_cons_of_mem _ ha, hEvol⟩

theorem evolves_wf {s s' : ExSt} (hwf : BookWF s) (he : Evolves s s') : BookWF s' := by
  obtain ⟨hfa, hnid, -⟩ := he
  constructor
  · rw [forall₂_map_id hfa]
    exact hwf.1
  · intro o' ho'
    obtain ⟨o, ho, hev⟩ := forall₂_exists_mem_right hfa o' ho'
    obtain ⟨hid, hrate, hrem⟩ := hwf.2 o ho
    exact ⟨by rw [hev.1, hnid]; exact hid, by rw [hev.2.2.2.1]; exact hrate,
      hev.2.2.2.2.2 hrem⟩

theorem walletAdd_evolves (s : ExSt) (u c : String) (v : ℚ) (h : 0 ≤ v) :
    Evolves s (walletAdd s u c v).2 := by
  obtain ⟨hok, rest, hj, hnn⟩ := walletAdd_nonneg s u c v h
  refine ⟨?_, walletAdd_nextID s u c v, rest, hj, hnn⟩
  rw [walletAdd_orders]
  exact forall₂_fieldEvol_refl s.orders

theorem setOSRSM_evolves (s : ExSt) (oid : Nat) (st : Status) (r : ℚ) (hr : 0 ≤ r) :
    Evolves s (setOrderStatusRemainingAndStampMatched s oid st r) := by
  refine ⟨?_, rfl, [], rfl, by simp⟩
  exact forall₂_updateFirst _ _ s.orders (fun x _ _ => ⟨rfl, rfl, rfl, rfl, rfl, fun _ => hr⟩)

theorem stampOF_evolves (s : ExSt) (oid : Nat) : Evolves s (stampOrderFinished s oid) := by
  refine ⟨?_, rfl, [], rfl, by simp⟩
  exact forall₂_updateFirst _ _ s.orders (fun x _ _ => ⟨rfl, rfl, rfl, rfl, rfl, fun h => h⟩)

theorem insertHistory_evolves (s : ExSt) (src dst : Order) (sd : Side) (r a f1 f2 : ℚ) :
    Evolves s (insertHistory s src dst sd r a f1 f2) :=
  ⟨forall₂_fieldEvol_refl s.orders, rfl, [], rfl, by simp⟩

theorem ite_stamp_evolves (c : Prop) [Decidable c] (s : ExSt) (oid : Nat) :
    Evolves s (if c then stampOrderFinished s oid else s) := by
  split_ifs
  · exact stampOF_evolves s oid
  · exact evolves_refl s

theorem settleRebate_evolves (cfg : Cfg) (O O2 : Order) (rate amount : ℚ) (s : ExSt) :
    Evolves s (settleRebate cfg O O2 rate amount s).st := by
  unfold settleRebate
  by_cases h1 : O.side = Side.buy ∧ ¬O.rate = rate
  · rw [if_pos h1]
    by_cases h2 : 0 < amount * (O.rate - rate)
    · rw [if_pos h2]
      have hev := walletAdd_evolves s O.userID (getCurrency cfg O.side)
        (amount * (O.rate - rate)) h2.le
      rcases hw : walletAdd s O.userID (getCurrency cfg O.side) (amount * (O.rate - rate))
        with ⟨e, t⟩
      rw [hw] at hev
      cases e with
      | some e1 => exact hev
      | none =>
        dsimp only
        split_ifs <;> exact hev
    · rw [if_neg h2]
      split_ifs <;> exact evolves_refl s
  · rw [if_neg h1]
    split_ifs <;> exact evolves_refl s

theorem settleLimit_evolves (cfg : Cfg) (O M O2 : Order) (rate amount feeO feeM : ℚ)
    (s : ExSt) (hv1 : 0 ≤ amount - feeO) (hv2 : 0 ≤ amount - feeM) (hrate : 0 ≤ rate) :
    Evolves s (settleLimit cfg O M O2 rate amount feeO feeM s).st := by
  unfold settleLimit
  cases hside : O.side
  case buy =>
    dsimp only
    have hev1 := walletAdd_evolves s O.userID (getCurrency cfg M.side) (amount - feeO) hv1
    rcases hw1 : walletAdd s O.userID (getCurrency cfg M.side) (amount - feeO) with ⟨e1, s4⟩
    rw [hw1] at hev1
    cases e1 with
    | some e => exact hev1
    | none =>
      dsimp only
      have hev2 := walletAdd_evolves s4 M.userID (getCurrency cfg Side.buy)
        ((amount - feeM) * rate) (mul_nonneg hv2 hrate)
      rcases hw2 : walletAdd s4 M.userID (getCurrency cfg Side.buy) ((amount - feeM) * rate)
        with ⟨e2, s5⟩
      rw [hw2] at hev2
      cases e2 with
      | some e => exact evolves_trans hev1 hev2
      | none =>
        exact evolves_trans (evolves_trans hev1 hev2)
          (settleRebate_evolves cfg O O2 rate amount s5)
  case sell =>
    dsimp only
    have hev1 := walletAdd_evolves s O.userID (getCurrency cfg M.side) ((amount - feeO) * rate)
      (mul_nonneg hv1 hrate)
    rcases hw1 : walletAdd s O.userID (getCurrency cfg M.side) ((amount - feeO) * rate)
      with ⟨e1, s4⟩
    rw [hw1] at hev1
    cases e1 with
    | some e => exact hev1
    | none =>
      dsimp only
      have hev2 := walletAdd_evolves s4 M.userID (getCurrency cfg Side.sell) (amount - feeM) hv2
      rcases hw2 : walletAdd s4 M.userID (getCurrency cfg Side.sell) (amount - feeM)
        with ⟨e2, s5⟩
      rw [hw2] at hev2
      cases e2 with
      | some e => exact evolves_trans hev1 hev2
      | none =>
        exact evolves_trans (evolves_trans hev1 hev2)
          (settleRebate_evolves cfg O O2 rate amount s5)

theorem tradeLimit_evolves (cfg : Cfg) (O M : Order) (s : ExSt) (hfee : FeeOK cfg)
    (hO : 0 ≤ O.remaining) (hMrem : 0 ≤ M.remaining) (hMrate : 0 ≤ M.rate) :
    Evolves s (tradeLimit cfg O M s).st := by
  unfold tradeLimit
  have hA : 0 ≤ tradeAmount O M := tradeAmount_nonneg O M hO hMrem
  obtain ⟨hf1, hf2⟩ := hfee O.userID O.side O.rate (tradeAmount O M) hA
  obtain ⟨hf3, hf4⟩ := hfee M.userID M.side M.rate (tradeAmount O M) hA
  have hv1 : 0 ≤ tradeAmount O M - cfg.fee O.userID O.side O.rate (tradeAmount O M) := by
    linarith
  have hv2 : 0 ≤ tradeAmount O M - cfg.fee M.userID M.side M.rate (tradeAmount O M) := by
    linarith
  have hrem2 : 0 ≤ (fillOrder M (tradeAmount O M)).remaining := by
    rw [fillOrder_remaining]
    have := tradeAmount_le_rest O M
    linarith
  have e1 := ite_stamp_evolves (M.remaining - tradeAmount O M ≤ 0) s M.id
  have e2 := setOSRSM_evolves (if M.remaining - tradeAmount O M ≤ 0
      then stampOrderFinished s M.id else s) M.id
    (fillOrder M (tradeAmount O M)).status (fillOrder M (tradeAmount O M)).remaining hrem2
  have e3 := insertHistory_evolves (setOrderStatusRemainingAndStampMatched
      (if M.remaining - tradeAmount O M ≤ 0 then stampOrderFinished s M.id else s)
      M.id (fillOrder M (tradeAmount O M)).status (fillOrder M (tradeAmount O M)).remaining)
    (fillOrder O (tradeAmount O M)) (fillOrder M (tradeAmount O M)) Side.buy M.rate
    (tradeAmount O M) (cfg.fee O.userID O.side O.rate (tradeAmount O M))
    (cfg.fee M.userID M.side M.rate (tradeAmount O M))
  have e4 := settleLimit_evolves cfg O M (fillOrder O (tradeAmount O M)) M.rate
    (tradeAmount O M) (cfg.fee O.userID O.side O.rate (tradeAmount O M))
    (cfg.fee M.userID M.side M.rate (tradeAmount O M))
    (insertHistory (setOrderStatusRemainingAndStampMatched
        (if M.remaining - tradeAmount O M ≤ 0 then stampOrderFinished s M.id else s)
        M.id (fillOrder M (tradeAmount O M)).status (fillOrder M (tradeAmount O M)).remaining)
      (fillOrder O (tradeAmount O M)) (fillOrder M (tradeAmount O M)) Side.buy M.rate
      (tradeAmount O M) (cfg.fee O.userID O.side O.rate (tradeAmount O M))
      (cfg.fee M.userID M.side M.rate (tradeAmount O M)))
    hv1 hv2 hMrate
  exact evolves_trans (evolves_trans (evolves_trans e1 e2) e3) e4

theorem runLimitStep_evolves (cfg : Cfg) (O : Order) (s : ExSt) (hfee : FeeOK cfg)
    (hwf : BookWF s) (hO : 0 ≤ O.remaining) :
    Evolves s (runLimitStep cfg O s).st := by
  unfold runLimitStep
  cases hside : O.side
  case buy =>
    cases hM : getActiveSellLimitOrderLowestRate s with
    | none => exact evolves_refl s
    | some M =>
      dsimp only
      obtain ⟨hmem, -, -, -⟩ := getActiveSell_found s M hM
      obtain ⟨-, hrate, hrem⟩ := hwf.2 M hmem
      by_cases hc : O.rate < M.rate
      · rw [if_pos hc]; exact evolves_refl s
      · rw [if_neg hc]; exact tradeLimit_evolves cfg O M s hfee hO hrem hrate
  case sell =>
    cases hM : getActiveBuyLimitOrderHighestRate s with
    | none => exact evolves_refl s
    | some M =>
      dsimp only
      obtain ⟨hmem, -, -, -⟩ := getActiveBuy_found s M hM
      obtain ⟨-, hrate, hrem⟩ := hwf.2 M hmem
      by_cases hc : M.rate < O.rate
      · rw [if_pos hc]; exact evolves_refl s
      · rw [if_neg hc]; exact tradeLimit_evolves cfg O M s hfee hO hrem hrate

theorem settleRebate_ord (cfg : Cfg) (O O2 : Order) (rate amount : ℚ) (s : ExSt) :
    (settleRebate cfg O O2 rate amount s).ord = O2 := by
  unfold settleRebate
  by_cases h1 : O.side = Side.buy ∧ ¬O.rate = rate
  · rw [if_pos h1]
    by_cases h2 : 0 < amount * (O.rate - rate)
    · rw [if_pos h2]
      rcases hw : walletAdd s O.userID (getCurrency cfg O.side) (amount * (O.rate - rate))
        with ⟨e, t⟩
      cases e with
      | some e1 => rfl
      | none =>
        dsimp only
        split_ifs <;> rfl
    · rw [if_neg h2]
      split_ifs <;> rfl
  · rw [if_neg h1]
    split_ifs <;> rfl

theorem settleLimit_ord (cfg : Cfg) (O M O2 : Order) (rate amount feeO feeM : ℚ)
    (s : ExSt) : (settleLimit cfg O M O2 rate amount feeO feeM s).ord = O2 := by
  unfold settleLimit
  cases hside : O.side
  case buy =>
    dsimp only
    rcases hw1 : walletAdd s O.userID (getCurrency cfg M.side) (amount - feeO) with ⟨e1, s4⟩
    cases e1 with
    | some e => rfl
    | none =>
      dsimp only
      rcases hw2 : walletAdd s4 M.userID (getCurrency cfg Side.buy) ((amount - feeM) * rate)
        with ⟨e2, s5⟩
      cases e2 with
      | some e => rfl
      | none => exact settleRebate_ord cfg O O2 rate amount s5
  case sell =>
    dsimp only
    rcases hw1 : walletAdd s O.userID (getCurrency cfg M.side) ((amount - feeO) * rate)
      with ⟨e1, s4⟩
    cases e1 with
    | some e => rfl
    | none =>
      dsimp only
      rcases hw2 : walletAdd s4 M.userID (getCurrency cfg Side.sell) (amount - feeM)
        with ⟨e2, s5⟩
      cases e2 with
      | some e => rfl
      | none => exact settleRebate_ord cfg O O2 rate amount s5

theorem runLimitStep_agg (cfg : Cfg) (O : Order) (s : ExSt) (hO : 0 ≤ O.remaining) :
    (runLimitStep cfg O s).ord.id = O.id ∧ 0 ≤ (runLimitStep cfg O s).ord.remaining := by
  have htr : ∀ M, (tradeLimit cfg O M s).ord.id = O.id
      ∧ 0 ≤ (tradeLimit cfg O M s).ord.remaining := by
    intro M
    unfold tradeLimit
    rw [settleLimit_ord]
    refine ⟨fillOrder_id O (tradeAmount O M), ?_⟩
    rw [fillOrder_remaining]
    have := tradeAmount_le_agg O M
    linarith
  unfold runLimitStep
  cases hside : O.side
  case buy =>
    cases hM : getActiveSellLimitOrderLowestRate s with
    | none => exact ⟨rfl, hO⟩
    | some M =>
      dsimp only
      by_cases hc : O.rate < M.rate
      · rw [if_pos hc]; exact ⟨rfl, hO⟩
      · rw [if_neg hc]; exact htr M
  case sell =>
    cases hM : getActiveBuyLimitOrderHighestRate s with
    | none => exact ⟨rfl, hO⟩
    | some M =>
      dsimp only
      by_cases hc : M.rate < O.rate
      · rw [if_pos hc]; exact ⟨rfl, hO⟩
      · rw [if_neg hc]; exact htr M

theorem runLimitMatching_evolves (cfg : Cfg) (hfee : FeeOK cfg) :
    ∀ (fuel : Nat) (O : Order) (s : ExSt), BookWF s → 0 ≤ O.remaining →
      Evolves s (runLimitMatching cfg fuel O s).2.2 ∧
      0 ≤ (runLimitMatching cfg fuel O s).2.1.remaining ∧
      (runLimitMatching cfg fuel O s).2.1.id = O.id := by
  intro fuel
  induction fuel with
  | zero => exact fun O s _ hO => ⟨evolves_refl s, hO, rfl⟩
  | succ n ih =>
    intro O s hwf hO
    have hev := runLimitStep_evolves cfg O s hfee hwf hO
    have hagg := runLimitStep_agg cfg O s hO
    simp only [runLimitMatching]
    rcases hstep : runLimitStep cfg O s with ⟨O', s'⟩ | ⟨O', s'⟩ | ⟨e, O', s'⟩
    · rw [hstep] at hev hagg
      dsimp only [StepRes.st, StepRes.ord] at hev hagg
      exact ⟨hev, hagg.2, hagg.1⟩
    · rw [hstep] at hev hagg
      dsimp only [StepRes.st, StepRes.ord] at hev hagg
      have hwf' : BookWF s' := evolves_wf hwf hev
      obtain ⟨ihEv, ihRem, ihId⟩ := ih O' s' hwf' hagg.2
      exact ⟨evolves_trans hev ihEv, ihRem, ihId.trans hagg.1⟩
    · rw [hstep] at hev hagg
      dsimp only [StepRes.st, StepRes.ord] at hev hagg
      exact ⟨hev, hagg.2, hagg.1⟩

@[simp] theorem createOrder_fst (s : ExSt) (o : Order) : (createOrder s o).1 = s.nextID := rfl

@[simp] theorem createOrder_orders (s : ExSt) (o : Order) :
    (createOrder s o).2.orders = s.orders ++ [{ o with id := s.nextID, createdAt := s.now }] :=
  rfl

@[simp] theorem createOrder_journal (s : ExSt) (o : Order) :
    (createOrder s o).2.journal = s.journal := rfl

@[simp] theorem createOrder_nextID (s : ExSt) (o : Order) :
    (createOrder s o).2.nextID = s.nextID + 1 := rfl

theorem walletAdd_journal_nonzero (s : ExSt) (u c : String) (v : ℚ) (hv : v ≠ 0)
    (h : (walletAdd s u c v).1 = none) :
    (walletAdd s u c v).2.journal = (u, c, v) :: s.journal := by
  unfold walletAdd at h ⊢
  split_ifs at h ⊢ with h1 h2
  · exact absurd h1 hv
  · rfl

theorem createOrder_wf (s : ExSt) (o : Order) (hwf : BookWF s)
    (hrate : 0 ≤ o.rate) (hrem : 0 ≤ o.remaining) : BookWF (createOrder s o).2 := by
  constructor
  · rw [createOrder_orders, List.map_append]
    rw [List.nodup_append]
    refine ⟨hwf.1, List.nodup_singleton _, ?_⟩
    intro x hx hx2
    simp only [List.map_cons, List.map_nil, List.mem_singleton] at hx2
    rcases List.mem_map.mp hx with ⟨a, ha, hax⟩
    have := (hwf.2 a ha).1
    omega
  · intro a ha
    rw [createOrder_orders] at ha
    rcases List.mem_append.mp ha with h | h
    · obtain ⟨h1, h2, h3⟩ := hwf.2 a h
      exact ⟨by rw [createOrder_nextID]; omega, h2, h3⟩
    · simp only [List.mem_singleton] at h
      subst h
      refine ⟨?_, hrate, hrem⟩
      show s.nextID < s.nextID + 1
      omega

theorem getOrder_createOrder (s : ExSt) (o : Order) (hwf : BookWF s) :
    getOrder (createOrder s o).2 (createOrder s o).1
      = some { o with id := s.nextID, createdAt := s.now } := by
  unfold getOrder
  rw [createOrder_orders, createOrder_fst]
  rw [find?_append_all_false _ _ s.orders ?hall]
  case hall =>
    intro x hx
    have := (hwf.2 x hx).1
    simp only [beq_eq_false_iff_ne, ne_eq]
    omega
  rw [List.find?_cons_of_pos _ (by simp)]

theorem matchingLimitOrder_evolves (cfg : Cfg) (fuel : Nat) (s2 : ExSt) (oid : Nat)
    (o : Order) (hget : getOrder s2 oid = some o) (hwf2 : BookWF s2) (hfee : FeeOK cfg)
    (hrem0 : 0 ≤ o.remaining) :
    Evolves s2 (matchingLimitOrder cfg fuel s2 oid).2 := by
  unfold matchingLimitOrder
  rw [hget]
  dsimp only
  by_cases hact : o.status ≠ Status.active
  · rw [if_pos hact]; exact evolves_refl s2
  · rw [if_neg hact]
    by_cases hrem : o.remaining ≤ 0
    · rw [if_pos hrem]; exact evolves_refl s2
    · rw [if_neg hrem]
      obtain ⟨hev, hrem', hid⟩ := runLimitMatching_evolves cfg hfee fuel o s2 hwf2 hrem0
      rcases hloop : runLimitMatching cfg fuel o s2 with ⟨eo, o', s3⟩
      rw [hloop] at hev hrem'
      cases eo with
      | some e => exact hev
      | none =>
        dsimp only
        by_cases hst : o'.status = Status.matched
        · rw [if_pos hst]
          exact evolves_trans hev (evolves_trans
            (setOSRSM_evolves s3 o'.id o'.status o'.remaining hrem')
            (stampOF_evolves _ o'.id))
        · rw [if_neg hst]
          exact evolves_trans hev (setOSRSM_evolves s3 o'.id o'.status o'.remaining hrem')

/-- **C2.** Successful limit placement takes exactly one escrow debit —
`value * rate` of the buy currency for Buy, `value` of the sell currency
for Sell — before the order is persisted: the new journal consists of
nonnegative settlement credits on top of that single debit entry on top of
the old journal, and the order is persisted with the given parameters;
when the escrow debit fails with `InsufficientBalance` the placement
returns that error with no order persisted and no other state change. -/
theorem claim_C2_limit_escrow (cfg : Cfg) (fuel : Nat) (s : ExSt) (u : String) (side : Side)
    (rate value : ℚ) (hv : 0 < value) (hr : 0 < rate)
    (hwf : BookWF s) (hfee : FeeOK cfg) :
    (s.balances u (getCurrency cfg side) < -escrowAmt side rate value →
      placeLimitOrder cfg fuel s u side rate value = (.error Err.balanceNotEnough, s))
    ∧ ∀ oid s', placeLimitOrder cfg fuel s u side rate value = (.ok oid, s') →
        oid = s.nextID
        ∧ (∃ rest, s'.journal
              = rest ++ (u, getCurrency cfg side, -escrowAmt side rate value) :: s.journal
            ∧ ∀ p ∈ rest, 0 ≤ p.2.2)
        ∧ ∃ o ∈ s'.orders, o.id = oid ∧ o.userID = u ∧ o.side = side
            ∧ o.rate = rate ∧ o.value = value := by
  have hesc : 0 < escrowAmt side rate value := by
    unfold escrowAmt
    cases side
    · exact mul_pos hv hr
    · exact hv
  have hnegesc : -escrowAmt side rate value < 0 := neg_lt_zero.mpr hesc
  constructor
  · intro hbal
    unfold placeLimitOrder
    rw [if_neg (not_le.mpr hv), if_neg (not_le.mpr hr)]
    rw [walletAdd_fail s u (getCurrency cfg side) (-escrowAmt side rate value) hnegesc hbal]
  · intro oid s' hres
    unfold placeLimitOrder at hres
    rw [if_neg (not_le.mpr hv), if_neg (not_le.mpr hr)] at hres
    rcases hw : walletAdd s u (getCurrency cfg side) (-escrowAmt side rate value) with ⟨e1, s1⟩
    rw [hw] at hres
    cases e1 with
    | some e => simp at hres
    | none =>
      dsimp only at hres
      have hok1 : (walletAdd s u (getCurrency cfg side) (-escrowAmt side rate value)).1
          = none := by rw [hw]
      have hj1 : s1.journal
          = (u, getCurrency cfg side, -escrowAmt side rate value) :: s.journal := by
        have hh := walletAdd_journal_nonzero s u (getCurrency cfg side)
          (-escrowAmt side rate value) (ne_of_lt hnegesc) hok1
        rw [hw] at hh
        exact hh
      have hord1 : s1.orders = s.orders := by
        have hh := walletAdd_orders s u (getCurrency cfg side) (-escrowAmt side rate value)
        rw [hw] at hh
        exact hh
      have hnid1 : s1.nextID = s.nextID := by
        have hh := walletAdd_nextID s u (getCurrency cfg side) (-escrowAmt side rate value)
        rw [hw] at hh
        exact hh
      have hwf1 : BookWF s1 := by
        constructor
        · rw [hord1]; exact hwf.1
        · intro o ho
          rw [hord1] at ho
          rw [hnid1]
          exact hwf.2 o ho
      have hwf2 : BookWF (createOrder s1 (newLimitOrder u side rate value)).2 :=
        createOrder_wf s1 _ hwf1 (le_of_lt hr) (le_of_lt hv)
      have hget := getOrder_createOrder s1 (newLimitOrder u side rate value) hwf1
      have hevml := matchingLimitOrder_evolves cfg fuel
        (createOrder s1 (newLimitOrder u side rate value)).2
        (createOrder s1 (newLimitOrder u side rate value)).1
        ({ newLimitOrder u side rate value with id := s1.nextID, createdAt := s1.now })
        hget hwf2 hfee (le_of_lt hv)
      rcases hml : matchingLimitOrder cfg fuel
          (createOrder s1 (newLimitOrder u side rate value)).2
          (createOrder s1 (newLimitOrder u side rate value)).1 with ⟨e2, s3⟩
      rw [hml] at hres hevml
      cases e2 with
      | some e => simp at hres
      | none =>
        have h1 := congrArg Prod.fst hres
        have h2 := congrArg Prod.snd hres
        simp only at h1 h2
        have hoid : oid = s.nextID := by
          rw [← hnid1]
          exact (Except.ok.inj h1).symm
        subst h2
        obtain ⟨hfa, -, rest, hjE, hnnE⟩ := hevml
        refine ⟨hoid, ⟨rest, ?_, hnnE⟩, ?_⟩
        · rw [hjE, createOrder_journal, hj1]
        · have hmemN : ({ newLimitOrder u side rate value with
              id := s1.nextID, createdAt := s1.now } : Order)
              ∈ (createOrder s1 (newLimitOrder u side rate value)).2.orders := by
            rw [createOrder_orders]
            exact List.mem_append_right _ (List.mem_singleton.mpr rfl)
          obtain ⟨b, hb, hevb⟩ := forall₂_exists_mem hfa _ hmemN
          refine ⟨b, hb, ?_, ?_, ?_, ?_, ?_⟩
          · rw [hevb.1, hoid, ← hnid1]
          · rw [hevb.2.1]
            rfl
          · rw [hevb.2.2.1]
            rfl
          · rw [hevb.2.2.2.1]
            rfl
          · rw [hevb.2.2.2.2.1]
            rfl

/-- Witness for C2: a Buy limit order (rate 2, value 50, escrow 100) placed
by a user whose balance is −200, so the escrow debit fails. -/
theorem claim_C2_witness :
    (oSt.balances "1" (getCurrency zeroFeeCfg Side.buy) < -escrowAmt Side.buy 2 50 →
      placeLimitOrder zeroFeeCfg 1 oSt "1" Side.buy 2 50
        = (.error Err.balanceNotEnough, oSt))
    ∧ ∀ oid s', placeLimitOrder zeroFeeCfg 1 oSt "1" Side.buy 2 50 = (.ok oid, s') →
        oid = oSt.nextID
        ∧ (∃ rest, s'.journal
              = rest ++ ("1", getCurrency zeroFeeCfg Side.buy, -escrowAmt Side.buy 2 50)
                :: oSt.journal
            ∧ ∀ p ∈ rest, 0 ≤ p.2.2)
        ∧ ∃ o ∈ s'.orders, o.id = oid ∧ o.userID = "1" ∧ o.side = Side.buy
            ∧ o.rate = 2 ∧ o.value = 50 :=
  claim_C2_limit_escrow zeroFeeCfg 1 oSt "1" Side.buy 2 50 (by decide) (by decide)
    (by decide) (fun u sd r a ha => ⟨le_refl 0, ha⟩)

/-- **C1.** For every fill of size `amount = min(O.remaining, M.remaining)`
executed by the limit matching loop at the resting rate `r = M.rate`: a Buy
aggressor's user is credited `amount − fee_O` in the sell currency and the
resting user `(amount − fee_M) * r` in the buy currency; a Sell aggressor's
user is credited `(amount − fee_O) * r` in the buy currency and the resting
user `amount − fee_M` in the sell currency, where the fees come from the
fee lookup for the respective users. -/
theorem claim_C1_settlement_credits (cfg : Cfg) (O M : Order) (s : ExSt)
    (hM : counterLookup O s = some M) (hcross : crossOK O M = true)
    (hok : (runLimitStep cfg O s).isErr = false) :
    ∃ O' s',
      (runLimitStep cfg O s = StepRes.stop O' s' ∨
        runLimitStep cfg O s = StepRes.next O' s') ∧
      (match O.side with
       | Side.buy => ∃ reb, s'.addTrace =
           reb ++ (M.userID, cfg.buyCur,
               (min O.remaining M.remaining
                 - cfg.fee M.userID M.side M.rate (min O.remaining M.remaining)) * M.rate) ::
             (O.userID, cfg.sellCur,
               min O.remaining M.remaining
                 - cfg.fee O.userID O.side O.rate (min O.remaining M.remaining))
             :: s.addTrace
       | Side.sell => s'.addTrace =
           (M.userID, cfg.sellCur,
               min O.remaining M.remaining
                 - cfg.fee M.userID M.side M.rate (min O.remaining M.remaining)) ::
             (O.userID, cfg.buyCur,
               (min O.remaining M.remaining
                 - cfg.fee O.userID O.side O.rate (min O.remaining M.remaining)) * M.rate)
             :: s.addTrace) := by
  have hstep := runLimitStep_eq_trade cfg O M s hM hcross
  rw [hstep] at hok ⊢
  obtain ⟨s', hres, htrB, htrS, _, _⟩ := tradeLimit_ok cfg O M s hok
  have hMside := counterLookup_found O s M hM
  refine ⟨fillOrder O (tradeAmount O M), s', ?_, ?_⟩
  · by_cases hst : (fillOrder O (tradeAmount O M)).status = Status.active
    · right; rw [hres, if_pos hst]
    · left; rw [hres, if_neg hst]
  · cases hside : O.side
    case buy =>
      have hMs : M.side = Side.sell := hMside.2.2.2.1 hside
      obtain ⟨reb, htr⟩ := htrB hside
      dsimp only
      rw [hMs]
      rw [hside, hMs, tradeAmount_min] at htr
      exact ⟨reb, htr⟩
    case sell =>
      have hMs : M.side = Side.buy := hMside.2.2.2.2 hside
      have htr := htrS hside
      dsimp only
      rw [hMs]
      rw [hside, hMs, tradeAmount_min] at htr
      exact htr

/-- Witness for C1: a Buy limit aggressor (rate 2, remaining 50) against
the resting sell wOrdM under the reference 25 bps fee policy. -/
theorem claim_C1_witness :
    ∃ O' s',
      (runLimitStep testCfg wOrdO wSt = StepRes.stop O' s' ∨
        runLimitStep testCfg wOrdO wSt = StepRes.next O' s') ∧
      (match wOrdO.side with
       | Side.buy => ∃ reb, s'.addTrace =
           reb ++ (wOrdM.userID, testCfg.buyCur,
               (min wOrdO.remaining wOrdM.remaining
                 - testCfg.fee wOrdM.userID wOrdM.side wOrdM.rate
                     (min wOrdO.remaining wOrdM.remaining)) * wOrdM.rate) ::
             (wOrdO.userID, testCfg.sellCur,
               min wOrdO.remaining wOrdM.remaining
                 - testCfg.fee wOrdO.userID wOrdO.side wOrdO.rate
                     (min wOrdO.remaining wOrdM.remaining))
             :: wSt.addTrace
       | Side.sell => s'.addTrace =
           (wOrdM.userID, testCfg.sellCur,
               min wOrdO.remaining wOrdM.remaining
                 - testCfg.fee wOrdM.userID wOrdM.side wOrdM.rate
                     (min wOrdO.remaining wOrdM.remaining)) ::
             (wOrdO.userID, testCfg.buyCur,
               (min wOrdO.remaining wOrdM.remaining
                 - testCfg.fee wOrdO.userID wOrdO.side wOrdO.rate
                     (min wOrdO.remaining wOrdM.remaining)) * wOrdM.rate)
             :: wSt.addTrace) :=
  claim_C1_settlement_credits testCfg wOrdO wOrdM wSt (by decide) (by decide)
    (by norm_num [runLimitStep, counterLookup, getActiveSellLimitOrderLowestRate, bestSellAcc,
        isActiveSellLimit, zeroOrder, wSt, wOrdM, wOrdO, testCfg, tradeLimit, tradeAmount,
        fillOrder, settleLimit, settleRebate, walletAdd, getCurrency, insertHistory,
        setOrderStatusRemainingAndStampMatched, stampOrderFinished, updateFirst, StepRes.isErr]
      <;> decide)

/-- **C5.** In every limit-matching iteration with aggressor `O` and best
counter `M`: if the cross check fails (`M.rate > O.rate` for a Buy,
`M.rate < O.rate` for a Sell aggressor) the loop stops with no trade and no
state change; otherwise `amount = min(O.remaining, M.remaining)` is
subtracted from both orders' remaining and the trade is recorded at the
resting rate `M.rate`. -/
theorem claim_C5_cross_check_and_size (cfg : Cfg) (O M : Order) (s : ExSt)
    (hM : counterLookup O s = some M)
    (hids : (s.orders.map fun o => o.id).Nodup) :
    (crossOK O M = false → runLimitStep cfg O s = StepRes.stop O s)
    ∧ (crossOK O M = true → (runLimitStep cfg O s).isErr = false →
       ∃ O' s',
         (runLimitStep cfg O s = StepRes.stop O' s' ∨
           runLimitStep cfg O s = StepRes.next O' s') ∧
         O'.remaining = O.remaining - min O.remaining M.remaining ∧
         ((getOrder s' M.id).map fun o => o.remaining)
             = some (M.remaining - min O.remaining M.remaining) ∧
         ∃ h', s'.history = h' :: s.history ∧ h'.rate = M.rate
             ∧ h'.amount = min O.remaining M.remaining) := by
  constructor
  · intro hcross
    exact runLimitStep_stop_of_crossFail cfg O M s hM hcross
  · intro hcross hok
    have hstep := runLimitStep_eq_trade cfg O M s hM hcross
    rw [hstep] at hok ⊢
    obtain ⟨s', hres, _, _, hhist, hord⟩ := tradeLimit_ok cfg O M s hok
    have hMmem := (counterLookup_found O s M hM).1
    refine ⟨fillOrder O (tradeAmount O M), s', ?_, ?_, ?_, ?_⟩
    · by_cases hst : (fillOrder O (tradeAmount O M)).status = Status.active
      · right; rw [hres, if_pos hst]
      · left; rw [hres, if_neg hst]
    · rw [fillOrder_remaining, tradeAmount_min]
    · show ((getOrder s' M.id).map fun o => o.remaining) = _
      unfold getOrder
      rw [hord]
      have hper := find?_persistM (M.remaining - tradeAmount O M ≤ 0) s M
        (fillOrder M (tradeAmount O M)).status (fillOrder M (tradeAmount O M)).remaining
        hids hMmem
      exact hper.trans (by rw [fillOrder_remaining, tradeAmount_min])
    · exact ⟨_, hhist, rfl, tradeAmount_min O M⟩

/-- Witness for C5: the same concrete crossing pair as the C1 witness. -/
theorem claim_C5_witness :
    (crossOK wOrdO wOrdM = false → runLimitStep testCfg wOrdO wSt = StepRes.stop wOrdO wSt)
    ∧ (crossOK wOrdO wOrdM = true → (runLimitStep testCfg wOrdO wSt).isErr = false →
       ∃ O' s',
         (runLimitStep testCfg wOrdO wSt = StepRes.stop O' s' ∨
           runLimitStep testCfg wOrdO wSt = StepRes.next O' s') ∧
         O'.remaining = wOrdO.remaining - min wOrdO.remaining wOrdM.remaining ∧
         ((getOrder s' wOrdM.id).map fun o => o.remaining)
             = some (wOrdM.remaining - min wOrdO.remaining wOrdM.remaining) ∧
         ∃ h', s'.history = h' :: wSt.history ∧ h'.rate = wOrdM.rate
             ∧ h'.amount = min wOrdO.remaining wOrdM.remaining) :=
  claim_C5_cross_check_and_size testCfg wOrdO wOrdM wSt (by decide) (by decide)

/-- **C3.** Cancelling an Active limit order with residual `ρ` and rate `r`
credits its owner exactly `ρ * r` in the buy currency when the order side is
Buy, and exactly `ρ` in the sell currency when the side is Sell, changing no
other balance. -/
theorem claim_C3_cancel_refund (cfg : Cfg) (s : ExSt) (oid : Nat) (o : Order)
    (h : getOrder s oid = some o) (hact : o.status = Status.active)
    (hlim : o.typ = OrderType.limit) (hrem : 0 ≤ o.remaining) (hrate : 0 ≤ o.rate) :
    ∃ s', cancelOrder cfg s oid = (none, s') ∧
      (match o.side with
       | Side.buy =>
           s'.balances o.userID cfg.buyCur
               = s.balances o.userID cfg.buyCur + o.remaining * o.rate
           ∧ ∀ u' c', ¬(u' = o.userID ∧ c' = cfg.buyCur) →
               s'.balances u' c' = s.balances u' c'
       | Side.sell =>
           s'.balances o.userID cfg.sellCur
               = s.balances o.userID cfg.sellCur + o.remaining
           ∧ ∀ u' c', ¬(u' = o.userID ∧ c' = cfg.sellCur) →
               s'.balances u' c' = s.balances u' c') := by
  have hamt : 0 ≤ cancelAmt o := by
    unfold cancelAmt
    cases o.side
    · exact mul_nonneg hrem hrate
    · exact hrem
  obtain ⟨s', hres, hb1, hb2⟩ := cancelOrder_active cfg s oid o h hact hamt
  refine ⟨s', hres, ?_⟩
  cases hside : o.side with
  | buy =>
    rw [hside] at hb1 hb2
    unfold cancelAmt at hb1
    rw [hside] at hb1
    exact ⟨hb1, hb2⟩
  | sell =>
    rw [hside] at hb1 hb2
    unfold cancelAmt at hb1
    rw [hside] at hb1
    exact ⟨hb1, hb2⟩

/-- **C4.** Cancelling an order whose status is not Active returns success
and changes nothing at all; consequently a second cancel of an order whose
cancel already succeeded is a no-op, so cancelling twice equals cancelling
once. -/
theorem claim_C4_cancel_idempotent (cfg : Cfg) (s : ExSt) (oid : Nat) (o : Order)
    (h : getOrder s oid = some o) :
    (o.status ≠ Status.active → cancelOrder cfg s oid = (none, s))
    ∧ ∀ s', cancelOrder cfg s oid = (none, s') → cancelOrder cfg s' oid = (none, s') := by
  constructor
  · intro hst
    exact cancelOrder_noop cfg s oid o h hst
  · intro s' hc
    by_cases hact : o.status = Status.active
    · obtain ⟨o', ho', hcanc⟩ := cancelOrder_sets_cancelled cfg s oid o h hact none s' hc
      exact cancelOrder_noop cfg s' oid o' ho' (by rw [hcanc]; exact fun hcontra => by cases hcontra)
    · have := cancelOrder_noop cfg s oid o h hact
      rw [this] at hc
      have hs : s = s' := congrArg Prod.snd hc
      rw [← hs]
      exact this

/-- Witness for C3: cancelling the active sell limit order cOrd (residual
20) credits its owner 20 in the sell currency. -/
theorem claim_C3_witness :
    ∃ s', cancelOrder testCfg cSt 1 = (none, s') ∧
      (match cOrd.side with
       | Side.buy =>
           s'.balances cOrd.userID testCfg.buyCur
               = cSt.balances cOrd.userID testCfg.buyCur + cOrd.remaining * cOrd.rate
           ∧ ∀ u' c', ¬(u' = cOrd.userID ∧ c' = testCfg.buyCur) →
               s'.balances u' c' = cSt.balances u' c'
       | Side.sell =>
           s'.balances cOrd.userID testCfg.sellCur
               = cSt.balances cOrd.userID testCfg.sellCur + cOrd.remaining
           ∧ ∀ u' c', ¬(u' = cOrd.userID ∧ c' = testCfg.sellCur) →
               s'.balances u' c' = cSt.balances u' c') :=
  claim_C3_cancel_refund testCfg cSt 1 cOrd (by decide) (by decide) (by decide)
    (by decide) (by decide)

/-- Witness for C4: cancelling the already-Matched order dOrd. -/
theorem claim_C4_witness :
    (dOrd.status ≠ Status.active → cancelOrder testCfg dSt 1 = (none, dSt))
    ∧ ∀ s', cancelOrder testCfg dSt 1 = (none, s') → cancelOrder testCfg s' 1 = (none, s') :=
  claim_C4_cancel_idempotent testCfg dSt 1 dOrd (by decide)

/-- **C7.** `wallet.Add` fails (always with `ErrBalanceNotEnough`) exactly
when the value is negative and the current balance is numerically less than
the value — so an overdrawing debit is accepted whenever `balance ≥ value`,
even if `balance + value < 0` — and a failed call leaves the state
unchanged; a zero value succeeds without a journal entry or balance change;
and every non-zero successful call writes exactly one journal entry. -/
theorem claim_C7_wallet_add : ∀ (s : ExSt) (u c : String) (v : ℚ),
    ((walletAdd s u c v).1 ≠ none ↔ v < 0 ∧ s.balances u c < v)
    ∧ ((walletAdd s u c v).1 = none ∨ (walletAdd s u c v).1 = some Err.balanceNotEnough)
    ∧ ((walletAdd s u c v).1 ≠ none → (walletAdd s u c v).2 = s)
    ∧ (v = 0 → (walletAdd s u c v).1 = none ∧
        (walletAdd s u c v).2.journal = s.journal ∧
        (walletAdd s u c v).2.balances = s.balances)
    ∧ (v ≠ 0 → (walletAdd s u c v).1 = none →
        (walletAdd s u c v).2.journal = (u, c, v) :: s.journal) := by
  intro s u c v
  unfold walletAdd
  split_ifs with h1 h2 <;> simp_all

/-- **C9.** `totpuser.VerifyUser`: an empty stored secret verifies every
password, and `ErrInvalidPassword` is returned exactly when a non-empty
secret is stored and TOTP verification of the password fails. -/
theorem claim_C9_verify_user :
    ∀ (secrets : String → Option String) (verify : String → String → Bool) (u p : String),
    (secrets u = some "" → verifyUser secrets verify u p = .ok)
    ∧ (verifyUser secrets verify u p = .invalidPassword ↔
        ∃ sec, secrets u = some sec ∧ sec ≠ "" ∧ verify sec p = false) := by
  intro secrets verify u p
  cases h : secrets u with
  | none => simp [verifyUser, h]
  | some sec =>
    by_cases hsec : sec = ""
    · subst hsec
      simp [verifyUser, h]
    · by_cases hv : verify sec p
      · simp [verifyUser, h, hsec, hv]
      · simp only [Bool.not_eq_true] at hv
        simp [verifyUser, h, hsec, hv]

/-- **C10.** `recaptcha.Verify` with an empty code never performs an HTTP
request: it immediately returns `(true, nil)` exactly when the configured
site key is the built-in test site key — which is also the default site key
when the service is constructed from empty site and secret — and
`(false, nil)` otherwise. -/
theorem claim_C10_recaptcha_empty_code : ∀ (svc : RecaptchaService) (remoteIP : String),
    (∃ b, recaptchaVerify svc remoteIP "" = .immediate b)
    ∧ (recaptchaVerify svc remoteIP "" = .immediate true ↔ svc.site = testSiteKey)
    ∧ (svc.site ≠ testSiteKey → recaptchaVerify svc remoteIP "" = .immediate false)
    ∧ newWithClient "" "" = ⟨testSiteKey, testSecretKey⟩ := by
  intro svc remoteIP
  by_cases h : svc.site = testSiteKey <;>
    simp [recaptchaVerify, newWithClient, h]

/-- **C6.** Evaluation of the code at the failing input for the claim "a
market order's residual is Cancelled with no refund credited to its owner":
a Sell market order of value 50 placed into an empty book matches nothing,
so the final cancel leaves it Cancelled with remaining 50 — but the owner
IS credited 50 of the sell currency (the journal holds exactly that one
credit entry and no debit was ever taken), contradicting the claim (and
spec §4.3.4): `CancelOrder` refunds `remaining` for a Sell order without
checking that market orders carry no escrow. -/
theorem claim_C6_market_residual_refund :
    ((placeMarketOrder testCfg 1 emptySt "1" Side.sell 50).1.toOption = some 0)
    ∧ ((getOrder (placeMarketOrder testCfg 1 emptySt "1" Side.sell 50).2 0).map
        (fun o => (o.status, o.remaining)) = some (Status.cancelled, 50))
    ∧ (placeMarketOrder testCfg 1 emptySt "1" Side.sell 50).2.balances "1" "B" = 50
    ∧ (placeMarketOrder testCfg 1 emptySt "1" Side.sell 50).2.journal
        = [("1", "B", 50)] := by
  refine ⟨by decide, by decide, ?_, by decide⟩
  show (0 : ℚ) + 50 = 50
  norm_num

end GoServices
